import Mathlib

/-!
Verification of the `charcoal` Solidity-to-Sway translator.

This file gives a shallow embedding, in Lean 4, of the parts of the
translator that the verified properties speak about:

* the Sway output AST (`src/sway.rs`): type names, literals, expressions,
  blocks, statements, `let` bindings, functions, enums and impl items,
  together with `TypeName::getter_function_parameters_and_return_type`;
* the translation scope (`src/translate/mod.rs`): `TranslatedVariable`,
  `TranslatedFunction`, `TranslationScope` with its lookup functions and
  `generate_unique_variable_name`;
* the integer-width rule of `translate_type_name`
  (`src/translate/type_names.rs`);
* the getter-synthesis portion of `translate_state_variable`
  (`src/translate/storage.rs`);
* `finalize_block_translation`, `translate_revert_statement` and
  `translate_for_statement` (`src/translate/statements.rs`).

Modelling conventions
* Rust `Rc<RefCell<TranslationScope>>` chains are represented as a list of
  scope frames, innermost frame first; the parent pointer of a scope is the
  tail of the list (an empty tail plays the role of `parent: None`).
  Mutation of a scope is represented by returning the updated scope value.
* Rust panics and `todo!` calls inside the translated functions are
  represented with `Except String`; `eprintln!` warnings are represented as
  a returned boolean flag.
* `translate_expression`, `translate_statement`,
  `translate_assignment_expression` and `create_value_expression` live in
  modules of the repository that are not part of the provided snapshot
  (`src/translate/expressions.rs` and others); functions that call them take
  them as explicit function arguments, so every theorem below holds for any
  behaviour of those collaborators.
-/

set_option linter.unusedVariables false

namespace Charcoal

/-! ## The Sway output AST (`src/sway.rs`) -/

namespace sway

/-- `sway::TypeName` (src/sway.rs, lines 323-343).  The Rust type stores
generic arguments as `Option<GenericParameterList>` where
`GenericParameterList { entries: Vec<GenericParameter> }` and
`GenericParameter { type_name: TypeName, implements: Option<Vec<TypeName>> }`;
because Lean nested inductives cannot recurse through a separately declared
structure, a generic parameter is encoded as the pair
`TypeName × Option (List TypeName)` and the parameter list as a plain list
of such pairs. -/
inductive TypeName where
  | Undefined : TypeName
  | Identifier (name : String)
      (generic_parameters : Option (List (TypeName × Option (List TypeName)))) : TypeName
  | Array (type_name : TypeName) (length : Nat) : TypeName
  | Tuple (type_names : List TypeName) : TypeName
  | StringSlice : TypeName
  | StringArray (length : Nat) : TypeName
deriving Repr

/-- `sway::GenericParameter` encoded as a pair, see `TypeName`. -/
abbrev GenericParameter := TypeName × Option (List TypeName)

/-- The `type_name` field of `sway::GenericParameter`. -/
def GenericParameter.type_name (p : GenericParameter) : TypeName := p.1

/-- The `implements` field of `sway::GenericParameter`. -/
def GenericParameter.implements (p : GenericParameter) : Option (List TypeName) := p.2

/-- `sway::GenericParameterList` (its single field `entries` is inlined). -/
abbrev GenericParameterList := List GenericParameter

/-- `sway::Literal` (src/sway.rs, lines 503-509); the `u64` payloads of
`DecInt`/`HexInt` are modelled as `Nat` (the translator only builds small
constants such as 0 and 1). -/
inductive Literal where
  | Bool (b : Bool) : Literal
  | DecInt (n : Nat) : Literal
  | HexInt (n : Nat) : Literal
  | String (s : String) : Literal
deriving Repr

/-- `sway::LetIdentifier` (src/sway.rs, lines 1091-1095). -/
structure LetIdentifier where
  is_mutable : Bool
  name : String
deriving Repr, DecidableEq

/-- `sway::LetPattern` (src/sway.rs, lines 1062-1066). -/
inductive LetPattern where
  | Identifier (id : LetIdentifier) : LetPattern
  | Tuple (ids : List LetIdentifier) : LetPattern
deriving Repr, DecidableEq

/-- The identifiers bound by a `let` pattern, in pattern order. -/
def LetPattern.ids : LetPattern → List LetIdentifier
  | .Identifier id => [id]
  | .Tuple ids => ids

mutual

/-- `sway::Expression` (src/sway.rs, lines 1109-1131).  The constructors
not exercised by any verified property (`Array`, `ArrayAccess`, `Match`,
`UnaryExpression`, `Constructor`, `AsmBlock`, `Commented`, `If`) are
represented by the catch-all `OtherExpression`; every translated function
below treats them exactly as the source treats a non-matching variant. -/
inductive Expression where
  | Literal (l : Literal) : Expression
  | Identifier (name : String) : Expression
  | FunctionCall (function : Expression)
      (generic_parameters : Option GenericParameterList)
      (parameters : List Expression) : Expression
  | Block (b : Block) : Expression
  | Return (e : Option Expression) : Expression
  | MemberAccess (expression : Expression) (member : String) : Expression
  | Tuple (es : List Expression) : Expression
  | While (condition : Expression) (body : Block) : Expression
  | BinaryExpression (op : String) (lhs rhs : Expression) : Expression
  | Continue : Expression
  | Break : Expression
  | OtherExpression (tag : Nat) (children : List Expression) : Expression

/-- `sway::Block` (src/sway.rs, lines 969-973). -/
inductive Block where
  | mk (statements : List Statement) (final_expr : Option Expression) : Block

/-- `sway::Statement` (src/sway.rs, lines 997-1002). -/
inductive Statement where
  | Let (l : Let) : Statement
  | Expression (e : Expression) : Statement

/-- `sway::Let` (src/sway.rs, lines 1040-1045). -/
inductive Let where
  | mk (pattern : LetPattern) (type_name : Option TypeName) (value : Expression) : Let

end

/-- The `statements` field of `sway::Block`. -/
def Block.statements : Block → List Statement
  | .mk s _ => s

/-- The `final_expr` field of `sway::Block`. -/
def Block.final_expr : Block → Option Expression
  | .mk _ e => e

/-- The `pattern` field of `sway::Let`. -/
def Let.pattern : Let → LetPattern
  | .mk p _ _ => p

/-- The `type_name` field of `sway::Let`. -/
def Let.type_name : Let → Option TypeName
  | .mk _ t _ => t

/-- The `value` field of `sway::Let`. -/
def Let.value : Let → Expression
  | .mk _ _ v => v

/-- `sway::Attribute` (src/sway.rs, lines 291-294). -/
structure Attribute where
  name : String
  parameters : Option (List String)
deriving Repr

/-- `sway::AttributeList` (src/sway.rs, lines 310-313). -/
structure AttributeList where
  attributes : List Attribute
deriving Repr

/-- `sway::Parameter` (src/sway.rs, lines 860-866), with the same defaults
as the Rust `Default` derivation. -/
structure Parameter where
  is_ref : Bool := false
  is_mut : Bool := false
  name : String := ""
  type_name : Option TypeName := none
deriving Repr

/-- `sway::ParameterList` (src/sway.rs, lines 890-893). -/
structure ParameterList where
  entries : List Parameter
deriving Repr

/-- `sway::Function` (src/sway.rs, lines 809-818). -/
structure Function where
  attributes : Option AttributeList
  is_public : Bool
  name : String
  generic_parameters : Option GenericParameterList
  parameters : ParameterList
  return_type : Option TypeName
  body : Option Block

/-- `sway::EnumVariant` (src/sway.rs, lines 627-631). -/
structure EnumVariant where
  name : String
  type_name : TypeName

/-- `sway::Enum` (src/sway.rs, lines 585-592). -/
structure Enum where
  attributes : Option AttributeList
  is_public : Bool
  name : String
  generic_parameters : Option GenericParameterList
  variants : List EnumVariant

/-- `sway::Constant` (src/sway.rs, lines 476-482). -/
structure Constant where
  is_public : Bool
  name : String
  type_name : TypeName
  value : Option Expression

/-- `sway::TypeDefinition` (src/sway.rs, lines 451-456). -/
structure TypeDefinition where
  is_public : Bool
  name : TypeName
  underlying_type : Option TypeName

/-- `sway::ImplItem` (src/sway.rs, lines 950-955). -/
inductive ImplItem where
  | Constant (c : Constant) : ImplItem
  | TypeDefinition (t : TypeDefinition) : ImplItem
  | Function (f : Function) : ImplItem

/-- `sway::Impl` (src/sway.rs, lines 903-909). -/
structure Impl where
  generic_parameters : Option GenericParameterList
  type_name : TypeName
  for_type_name : Option TypeName
  items : List ImplItem

/-- The successive parameter names `"a"`, `"b"`, … chosen by
`getter_function_parameters_and_return_type`: the Rust iterator
`('a'..'z').enumerate().take_while(|(i, _)| *i < count)` yields the first
`min count 25` lowercase letters (the range excludes `'z'`). -/
def parameter_letters (count : Nat) : List String :=
  (((List.range 25).map (fun i => String.singleton (Char.ofNat (97 + i)))).take count)

/-- The renaming loop of `getter_function_parameters_and_return_type`
(src/sway.rs, lines 395-402 and 429-436): parameter `i` is renamed to the
`i`-th lowercase letter; parameters past the 25th keep their names. -/
def rename_getter_parameters (parameters : List (Parameter × Bool)) :
    List (Parameter × Bool) :=
  parameters.enum.map fun ip =>
    match (parameter_letters parameters.length)[ip.1]? with
    | some letter => ({ ip.2.1 with name := letter }, ip.2.2)
    | none => ip.2

/-- `TypeName::getter_function_parameters_and_return_type`
(src/sway.rs, lines 371-446).  Returns `none` for types that need no getter
parameters; the panics of the source (`Undefined` receiver, generic-argument
lists too short for the `entries[0]`/`entries[1]` indexing) become `.error`. -/
def getter_function_parameters_and_return_type (t : TypeName) :
    Except String (Option (List (Parameter × Bool) × TypeName)) :=
  match t with
  | .Undefined => .error "Undefined type name"
  | .Identifier name (some generic_parameters) =>
    if name = "StorageMap" then
      match generic_parameters with
      | (k, _) :: (v, _) :: _ => do
        let ps : List (Parameter × Bool) := [({ name := "_", type_name := some k }, false)]
        let inner ← getter_function_parameters_and_return_type v
        let (parameters, return_type) :=
          match inner with
          | some (inner_parameters, inner_return_type) =>
            (ps ++ inner_parameters, inner_return_type)
          | none => (ps, v)
        .ok (some (rename_getter_parameters parameters, return_type))
      | _ => .error "index out of bounds: generic parameter list"
    else if name = "StorageVec" then
      match generic_parameters with
      | (e, _) :: _ => do
        let ps : List (Parameter × Bool) :=
          [({ name := "_", type_name := some (.Identifier "u64" none) }, true)]
        let inner ← getter_function_parameters_and_return_type e
        let (parameters, return_type) :=
          match inner with
          | some (inner_parameters, inner_return_type) =>
            (ps ++ inner_parameters, inner_return_type)
          | none => (ps, e)
        .ok (some (rename_getter_parameters parameters, return_type))
      | _ => .error "index out of bounds: generic parameter list"
    else .ok none
  | _ => .ok none

end sway

/-! ## The Solidity input AST (`solang_parser::pt`, consumed as a black box) -/

namespace solidity

/-- The fragment of `solang_parser::pt::Expression` that the verified
statement translators pattern-match on.  Location payloads are dropped (the
translator only forwards them); every other constructor of the parser's
expression type is represented by `OtherExpression`, which the translated
functions treat exactly as the source treats a non-matching variant. -/
inductive Expression where
  | NumberLiteral (value : String) (exponent : String) : Expression
  | StringLiteral (values : List String) : Expression
  | Variable (name : String) : Expression
  | PreIncrement (x : Expression) : Expression
  | PostIncrement (x : Expression) : Expression
  | PreDecrement (x : Expression) : Expression
  | PostDecrement (x : Expression) : Expression
  | OtherExpression (tag : Nat) : Expression

end solidity

/-! ## The translation scope (`src/translate/mod.rs`) -/

/-- `TranslatedVariable` (src/translate/mod.rs, lines 38-50), with the same
defaults as the Rust `Default` derivation. -/
structure TranslatedVariable where
  old_name : String := ""
  new_name : String := ""
  type_name : sway.TypeName := .Undefined
  abi_type_name : Option sway.TypeName := none
  is_storage : Bool := false
  is_configurable : Bool := false
  is_constant : Bool := false
  statement_index : Option Nat := none
  read_count : Nat := 0
  mutation_count : Nat := 0

/-- `TranslatedFunction` (src/translate/mod.rs, lines 52-60).  The
`constructor_calls` and `modifiers` fields hold `sway::FunctionCall` nodes;
function-call nodes are represented here as `sway.Expression` values. -/
structure TranslatedFunction where
  old_name : String := ""
  new_name : String := ""
  parameters : sway.ParameterList := ⟨[]⟩
  constructor_calls : List sway.Expression := []
  modifiers : List sway.Expression := []
  return_type : Option sway.TypeName := none

/-- One frame of a `TranslationScope` (src/translate/mod.rs, lines 72-77):
its local `variables` and `functions` in insertion order.  The `parent`
field is represented by the tail of the scope list, see `TranslationScope`. -/
structure ScopeFrame where
  «variables» : List TranslatedVariable := []
  functions : List TranslatedFunction := []

/-- `TranslationScope` (src/translate/mod.rs, lines 72-77): the chain of
scope frames, innermost first.  `frame :: parent` models a scope whose
`parent` field is `Some(parent)` (with the empty list for `parent: None`);
the scope-returning functions below model in-place mutation through
`Rc<RefCell<_>>` by returning the updated chain. -/
abbrev TranslationScope := List ScopeFrame

/-- `TranslationScope::get_variable_from_old_name`
(src/translate/mod.rs, lines 92-104): reverse search of the local entries,
then delegation to the parent. -/
def get_variable_from_old_name : TranslationScope → String → Option TranslatedVariable
  | [], _ => none
  | f :: parent, old_name =>
    match f.variables.reverse.find? (fun v => v.old_name == old_name) with
    | some v => some v
    | none => get_variable_from_old_name parent old_name

/-- `TranslationScope::get_variable_from_new_name`
(src/translate/mod.rs, lines 107-119): reverse search of the local entries,
then delegation to the parent. -/
def get_variable_from_new_name : TranslationScope → String → Option TranslatedVariable
  | [], _ => none
  | f :: parent, new_name =>
    match f.variables.reverse.find? (fun v => v.new_name == new_name) with
    | some v => some v
    | none => get_variable_from_new_name parent new_name

/-- `TranslationScope::find_variable` (src/translate/mod.rs, lines 122-134):
`self.variables.iter().find(f)` searches the local entries in forward
insertion order (unlike the name lookups, which use `.iter().rev()`), then
delegates to the parent. -/
def find_variable : TranslationScope → (TranslatedVariable → Bool) → Option TranslatedVariable
  | [], _ => none
  | f :: parent, pred =>
    match f.variables.find? pred with
    | some v => some v
    | none => find_variable parent pred

/-- `TranslationScope::find_function` (src/translate/mod.rs, lines 170-182):
forward search of the local entries, then delegation to the parent. -/
def find_function : TranslationScope → (TranslatedFunction → Bool) → Option TranslatedFunction
  | [], _ => none
  | f :: parent, pred =>
    match f.functions.find? pred with
    | some fn => some fn
    | none => find_function parent pred

/-- All variable bindings visible from a scope, innermost binding first:
each frame contributes its local entries in reverse insertion order, the
parent chain follows.  (Proof-support definition: the order in which
`get_variable_from_new_name` examines bindings.) -/
def visible_variables : TranslationScope → List TranslatedVariable
  | [] => []
  | f :: parent => f.variables.reverse ++ visible_variables parent

/-- All variable bindings visible from a scope in the order `find_variable`
examines them: each frame contributes its local entries in forward insertion
order, the parent chain follows.  (Proof-support definition.) -/
def forward_visible_variables : TranslationScope → List TranslatedVariable
  | [] => []
  | f :: parent => f.variables ++ forward_visible_variables parent

/-- All function bindings visible from a scope in the order `find_function`
examines them.  (Proof-support definition.) -/
def forward_visible_functions : TranslationScope → List TranslatedFunction
  | [] => []
  | f :: parent => f.functions ++ forward_visible_functions parent

/-- The largest `new_name` length among the bindings visible from a scope.
(Proof-support definition: termination measure of
`generate_unique_variable_name`.) -/
def max_new_name_length (s : TranslationScope) : Nat :=
  ((visible_variables s).map (fun v => v.new_name.length)).foldr Nat.max 0

theorem le_foldr_max (x : Nat) (xs : List Nat) (hx : x ∈ xs) : x ≤ xs.foldr Nat.max 0 := by
  induction xs with
  | nil => simp at hx
  | cons a xs ih =>
    rcases List.mem_cons.mp hx with h | h
    · subst h; exact Nat.le_max_left _ _
    · exact le_trans (ih h) (Nat.le_max_right _ _)

theorem get_variable_from_new_name_eq_find (s : TranslationScope) (n : String) :
    get_variable_from_new_name s n = (visible_variables s).find? (fun v => v.new_name == n) := by
  induction s with
  | nil => rfl
  | cons f parent ih =>
    simp only [get_variable_from_new_name, visible_variables, List.find?_append, ih]
    cases f.variables.reverse.find? (fun v => v.new_name == n) <;> simp [Option.or]

theorem length_le_max_of_found (s : TranslationScope) (n : String)
    (h : (get_variable_from_new_name s n).isSome) : n.length ≤ max_new_name_length s := by
  rw [get_variable_from_new_name_eq_find] at h
  rw [Option.isSome_iff_exists] at h
  obtain ⟨v, hv⟩ := h
  have hmem := List.mem_of_find?_eq_some hv
  have heq : v.new_name = n := by
    have := List.find?_some hv
    simpa using this
  subst heq
  exact le_foldr_max _ _ (List.mem_map_of_mem _ hmem)

/-- `TranslationScope::generate_unique_variable_name`
(src/translate/mod.rs, lines 81-89): keep prefixing `"_"` until no binding
reachable through the scope chain carries the candidate as its `new_name`.
The source's `while` loop terminates because each round lengthens the
candidate and a successful lookup bounds the candidate's length by the
longest visible name; the same measure justifies the recursion here. -/
def generate_unique_variable_name (s : TranslationScope) (name : String) : String :=
  if h : (get_variable_from_new_name s name).isSome then
    generate_unique_variable_name s ("_" ++ name)
  else
    name
termination_by (max_new_name_length s + 1) - name.length
decreasing_by
  have := length_le_max_of_found s name h
  have hlen : ("_" ++ name).length = name.length + 1 := by
    rw [String.length_append, show "_".length = 1 from rfl]
    omega
  omega

/-! ## The integer-width rule of `translate_type_name`
(`src/translate/type_names.rs`) -/

/-- The `solidity::Type::Uint(bits)` arm of `translate_type_name`
(src/translate/type_names.rs, lines 79-111).  The result is
`some (name, warned)` where `name` is the produced Sway type identifier and
`warned` records whether the non-fatal `WARNING: unsupported unsigned
integer type` message is printed; `none` models the
`panic!("Invalid uint type")` arm.  The nested `match` mirrors the source:
exact widths 8, 16, 32, 64, 256 first, then the warning ranges `0..=8`,
`9..=16`, `17..=32`, `33..=64`, `65..=256`, then the panic. -/
def translate_uint_type_name (bits : Nat) : Option (String × Bool) :=
  if bits = 8 then some ("u8", false)
  else if bits = 16 then some ("u16", false)
  else if bits = 32 then some ("u32", false)
  else if bits = 64 then some ("u64", false)
  else if bits = 256 then some ("u256", false)
  else if bits ≤ 8 then some ("u8", true)
  else if bits ≤ 16 then some ("u16", true)
  else if bits ≤ 32 then some ("u32", true)
  else if bits ≤ 64 then some ("u64", true)
  else if bits ≤ 256 then some ("u256", true)
  else none

/-- Specification-side restatement of the width policy, written from the
amended claim: widths above 256 are an unrecoverable error, every other
width rounds up to the next supported width (so width 0 rounds to the 8-bit
type like every width of at most 8), and a warning is emitted exactly when
the width is not one of the five supported widths. -/
def uint_width_rounded (bits : Nat) : Option Nat :=
  if 256 < bits then none
  else if bits ≤ 8 then some 8
  else if bits ≤ 16 then some 16
  else if bits ≤ 32 then some 32
  else if bits ≤ 64 then some 64
  else some 256

/-- Specification-side warning predicate: a warning accompanies every width
that is not itself a supported width. -/
def uint_width_warns (bits : Nat) : Bool :=
  !(bits = 8 || bits = 16 || bits = 32 || bits = 64 || bits = 256)

/-! ## The getter-synthesis portion of `translate_state_variable`
(`src/translate/storage.rs`) -/

/-- The accessor chain built for a storage-backed getter
(src/translate/storage.rs, lines 227-263): starting from
`storage.<new_name>`, apply `.get(<parameter>)` for every synthesized
parameter, `.unwrap()` after each parameter flagged `needs_unwrap`, and
finish with `.read()`. -/
def storage_getter_body (new_name : String)
    (parameters : List (sway.Parameter × Bool)) : sway.Expression :=
  let chain := parameters.foldl
    (fun expression pb =>
      let expression := sway.Expression.FunctionCall
        (.MemberAccess expression "get") none [.Identifier pb.1.name]
      if pb.2 then
        sway.Expression.FunctionCall (.MemberAccess expression "unwrap") none []
      else
        expression)
    (sway.Expression.MemberAccess (.Identifier "storage") new_name)
  sway.Expression.FunctionCall (.MemberAccess chain "read") none []

/-- The getter-synthesis portion of `translate_state_variable`
(src/translate/storage.rs, lines 161-297).  The classification, naming and
initializer portion of the function (lines 38-159) depends on
`translate_expression`/`create_value_expression` from modules outside the
provided snapshot; this function receives that portion's outputs
(`is_public`, `is_storage`, `is_constant`, the translated `new_name` and
`variable_type_name`) and produces the three synthesized functions: the
parameterized ABI declaration, the top-level function carrying the storage
read, and the impl-block wrapper item, in that order.  `.ok none` models the
early `return Ok(())` for non-public variables; the `todo!` for public
configurable fields becomes `.error`. -/
def translate_state_variable_getter (is_public is_storage is_constant : Bool)
    (new_name : String) (variable_type_name : sway.TypeName) :
    Except String (Option (sway.Function × sway.Function × sway.ImplItem)) :=
  if !is_public then .ok none
  else do
    let return_type_slice : sway.TypeName :=
      match variable_type_name with
      | .StringSlice => .Identifier "String" none
      | _ => variable_type_name
    let getter ← sway.getter_function_parameters_and_return_type variable_type_name
    let (parameters, return_type) :=
      match getter with
      | some (inner_parameters, inner_return_type) => (inner_parameters, inner_return_type)
      | none => ([], return_type_slice)
    let sway_function : sway.Function := {
      attributes :=
        if is_storage then
          some { attributes := [{ name := "storage", parameters := some ["read"] }] }
        else
          none
      is_public := false
      name := new_name
      generic_parameters := none
      parameters := { entries := parameters.map (fun pb => pb.1) }
      return_type := some return_type
      body := none
    }
    let final_expr ←
      if is_storage then
        Except.ok (storage_getter_body new_name parameters)
      else if is_constant then
        Except.ok (sway.Expression.Identifier new_name)
      else
        Except.error "Handle getter function for non-storage variables"
    let toplevel_function : sway.Function :=
      { sway_function with body := some (.mk [] (some final_expr)) }
    let wrapper_function : sway.Function :=
      { sway_function with
          body := some (.mk [] (some (.FunctionCall
            (.Identifier ("::" ++ sway_function.name)) none []))) }
    .ok (some (sway_function, toplevel_function, sway.ImplItem.Function wrapper_function))

/-! ## `finalize_block_translation` (`src/translate/statements.rs`) -/

/-- The `mark_let_identifier_mutable` closure of `finalize_block_translation`
(src/translate/statements.rs, lines 74-78). -/
def mark_let_identifier_mutable (new_name : String) (id : sway.LetIdentifier) :
    sway.LetIdentifier :=
  if id.name == new_name then { id with is_mutable := true } else id

/-- Marking applied across a `let` pattern
(src/translate/statements.rs, lines 80-83). -/
def mark_let_pattern (new_name : String) : sway.LetPattern → sway.LetPattern
  | .Identifier id => .Identifier (mark_let_identifier_mutable new_name id)
  | .Tuple ids => .Tuple (ids.map (mark_let_identifier_mutable new_name))

/-- Marking applied to a whole `let` statement. -/
def mark_let_statement (new_name : String) (l : sway.Let) : sway.Let :=
  .mk (mark_let_pattern new_name l.pattern) l.type_name l.value

/-- The mutability pass of `finalize_block_translation`
(src/translate/statements.rs, lines 62-85): for every scope variable that
records a declaring statement index and a nonzero mutation count, the
statement at that index must be a `let` (the source panics otherwise, here
`.error`) and every identifier of its pattern named like the variable is
marked mutable. -/
def mark_mutable_declarations : List TranslatedVariable → List sway.Statement →
    Except String (List sway.Statement)
  | [], statements => .ok statements
  | v :: vs, statements =>
    match v.statement_index with
    | none => mark_mutable_declarations vs statements
    | some statement_index =>
      if 0 < v.mutation_count then
        match statements[statement_index]? with
        | some (.Let l) =>
          mark_mutable_declarations vs
            (statements.set statement_index (.Let (mark_let_statement v.new_name l)))
        | some _ => .error "Expected let statement"
        | none => .error "index out of bounds: statement index"
      else
        mark_mutable_declarations vs statements

/-- The variables recorded in a scope's own (innermost) frame: the
`scope.borrow().variables` list that the mutability pass iterates. -/
def scope_own_variables : TranslationScope → List TranslatedVariable
  | [] => []
  | f :: _ => f.variables

/-- The `check_let_identifier` closure of `finalize_block_translation`
(src/translate/statements.rs, lines 99-105): an identifier counts as
shadowing when the finalized block's scope has a parent and the identifier's
name resolves through that parent chain. -/
def check_let_identifier (scope : TranslationScope) (id : sway.LetIdentifier) : Nat :=
  match scope with
  | [] => 0
  | _ :: parent =>
    if (get_variable_from_new_name parent id.name).isSome then 1 else 0

/-- The `var_count` computed for one candidate sub-block
(src/translate/statements.rs, lines 94-118): the number of identifiers,
over all `let` statements of the sub-block, that shadow a binding visible
in the parent scope. -/
def shadowing_let_count (scope : TranslationScope) (statements : List sway.Statement) : Nat :=
  (statements.map (fun s =>
    match s with
    | .Let l => ((sway.LetPattern.ids l.pattern).map (check_let_identifier scope)).sum
    | _ => 0)).sum

/-- The sub-block flattening pass of `finalize_block_translation`
(src/translate/statements.rs, lines 87-132).  The source iterates the
statement indices in reverse and splices non-shadowing sub-blocks in place;
because each splicing decision depends only on the statement itself and on
the scope, and spliced-in statements are never revisited (the loop index
only decreases), the loop denotes this per-statement replacement. -/
def flatten_sub_blocks (scope : TranslationScope) :
    List sway.Statement → List sway.Statement
  | [] => []
  | s :: rest =>
    (match s with
     | .Expression (.Block sub_block) =>
       if shadowing_let_count scope sub_block.statements == 0 then
         sub_block.statements
       else
         [s]
     | _ => [s]) ++ flatten_sub_blocks scope rest

/-- The tail-block pass of `finalize_block_translation`
(src/translate/statements.rs, lines 134-138): if the final statement is a
block expression, pop it and splice its statements. -/
def flatten_tail_block (statements : List sway.Statement) : List sway.Statement :=
  match statements.getLast? with
  | some (.Expression (.Block inner_block)) =>
    statements.dropLast ++ inner_block.statements
  | _ => statements

/-- `finalize_block_translation` (src/translate/statements.rs, lines 57-141):
the mutability pass over the scope's own variables, then sub-block
flattening, then tail-block flattening.  The block's `final_expr` is left
untouched. -/
def finalize_block_translation (scope : TranslationScope) (block : sway.Block) :
    Except String sway.Block := do
  let statements ← mark_mutable_declarations (scope_own_variables scope) block.statements
  let statements := flatten_sub_blocks scope statements
  let statements := flatten_tail_block statements
  .ok (.mk statements block.final_expr)

/-! ## `translate_revert_statement` (`src/translate/statements.rs`)

`translate_expression` lives in `src/translate/expressions.rs`, which is not
part of the provided snapshot; the statement translators below therefore
take it as an explicit argument `texpr`.  Scope mutation performed inside it
(usage counters, pushed variables) is modelled by the returned scope. -/

/-- The type of the `translate_expression` collaborator: scope in,
translated expression and updated scope out (or a fatal error). -/
abbrev ExpressionTranslator :=
  TranslationScope → solidity.Expression → Except String (sway.Expression × TranslationScope)

/-- Left-to-right translation of an argument list, threading the scope, as
`parameters.iter().map(|p| translate_expression(...)).collect::<Result<_,_>>()`
does. -/
def translate_expression_list (texpr : ExpressionTranslator) :
    TranslationScope → List solidity.Expression →
    Except String (List sway.Expression × TranslationScope)
  | scope, [] => .ok ([], scope)
  | scope, p :: ps => do
    let (e, scope) ← texpr scope p
    let (es, scope) ← translate_expression_list texpr scope ps
    .ok (e :: es, scope)

/-- The `log(...)` payload built for a named error or event
(src/translate/statements.rs, lines 663-689): the bare variant path for a
niladic use, the variant applied to the lone translated argument for one
argument, the variant applied to a tuple of the translated arguments
otherwise. -/
def error_log_payload (texpr : ExpressionTranslator) (scope : TranslationScope)
    (enum_name variant_name : String) :
    List solidity.Expression → Except String (sway.Expression × TranslationScope)
  | [] => .ok (.Identifier (enum_name ++ "::" ++ variant_name), scope)
  | [p] => do
    let (e, scope) ← texpr scope p
    .ok (.FunctionCall (.Identifier (enum_name ++ "::" ++ variant_name)) none [e], scope)
  | ps => do
    let (es, scope) ← translate_expression_list texpr scope ps
    .ok (.FunctionCall (.Identifier (enum_name ++ "::" ++ variant_name)) none [.Tuple es],
         scope)

/-- The errors-enum lookup of `translate_revert_statement`
(src/translate/statements.rs, lines 651-654): the first errors enum with a
variant of the requested name; the source panics when none exists. -/
def find_errors_enum (errors_enums : List (sway.Enum × sway.Impl))
    (error_variant_name : String) : Except String sway.Enum :=
  match errors_enums.find?
      (fun ei => ei.1.variants.any (fun v => v.name == error_variant_name)) with
  | some ei => .ok ei.1
  | none => .error "Failed to find error variant"

/-- The `revert(0)` statement built by `translate_revert_statement`. -/
def revert_zero_statement : sway.Statement :=
  .Expression (.FunctionCall (.Identifier "revert") none [.Literal (.DecInt 0)])

/-- `translate_revert_statement` (src/translate/statements.rs,
lines 641-742).  `error_type` carries the identifiers of the
`solidity::IdentifierPath` naming the error (the source takes
`identifiers.first().unwrap()`); `errors_enums` is the
`translated_definition.errors_enums` list of generated errors enums paired
with their `abi_encode` impls. -/
def translate_revert_statement (texpr : ExpressionTranslator)
    (errors_enums : List (sway.Enum × sway.Impl)) (scope : TranslationScope)
    (error_type : Option (List String)) (parameters : List solidity.Expression) :
    Except String (sway.Statement × TranslationScope) :=
  match error_type with
  | some identifiers => do
    let error_variant_name ←
      match identifiers.head? with
      | some n => Except.ok n
      | none => Except.error "identifier path with no identifiers"
    let errors_enum ← find_errors_enum errors_enums error_variant_name
    let (payload, scope) ←
      error_log_payload texpr scope errors_enum.name error_variant_name parameters
    .ok (.Expression (.Block (.mk
      [ .Expression (.FunctionCall (.Identifier "log") none [payload]),
        revert_zero_statement ]
      none)), scope)
  | none =>
    if parameters.isEmpty then
      .ok (revert_zero_statement, scope)
    else
      match parameters.head? with
      | some (.StringLiteral reason) =>
        .ok (.Expression (.Block (.mk
          [ .Expression (.FunctionCall (.Identifier "log") none
              [.Literal (.String (String.join reason))]),
            revert_zero_statement ]
          none)), scope)
      | _ => .error "translate revert statement"

/-! ## `translate_for_statement` (`src/translate/statements.rs`) -/

/-- The type of the `translate_statement` collaborator, generic over the
(unexamined) Solidity statement type: scope in, translated statement and
updated scope out. -/
abbrev StatementTranslator (SolStmt : Type) :=
  TranslationScope → SolStmt → Except String (sway.Statement × TranslationScope)

/-- The type of the `translate_assignment_expression` collaborator: scope,
operator, assignment target and right-hand side in, translated expression
and updated scope out. -/
abbrev AssignmentTranslator :=
  TranslationScope → String → solidity.Expression → solidity.Expression →
  Except String (sway.Expression × TranslationScope)

/-- Update the first entry of the list that matches the name.  (Helper for
`set_statement_index_in_frame`.) -/
def set_statement_index_first (name : String) (index : Nat) :
    List TranslatedVariable → List TranslatedVariable
  | [] => []
  | v :: vs =>
    if v.new_name == name then { v with statement_index := some index } :: vs
    else v :: set_statement_index_first name index vs

/-- Update the innermost binding whose `new_name` matches, mirroring the
entry `get_variable_from_new_name` resolves to: the last matching local
entry of the innermost frame that has one.  (Helper for the in-place
`variable.borrow_mut().statement_index = Some(..)` writes of the source.) -/
def set_statement_index_in_frame (vars : List TranslatedVariable)
    (name : String) (index : Nat) : List TranslatedVariable :=
  (set_statement_index_first name index vars.reverse).reverse

/-- Update the binding `get_variable_from_new_name` resolves to with a new
`statement_index`; `none` models the source's panic when no binding is
found. -/
def set_variable_statement_index : TranslationScope → String → Nat →
    Option TranslationScope
  | [], _, _ => none
  | f :: parent, name, index =>
    if (f.variables.reverse.find? (fun v => v.new_name == name)).isSome then
      some ({ f with «variables» := set_statement_index_in_frame f.variables name index }
        :: parent)
    else
      (set_variable_statement_index parent name index).map (f :: ·)

/-- The `store_let_identifier_statement_index` closure of
`translate_for_statement` (src/translate/statements.rs, lines 542-555):
record the statement index against each identifier declared by the
initialization `let`, failing when a name is not in scope. -/
def store_let_identifier_statement_indices (scope : TranslationScope)
    (ids : List sway.LetIdentifier) (index : Nat) : Except String TranslationScope :=
  ids.foldlM (fun scope id =>
    match set_variable_statement_index scope id.name index with
    | some scope => .ok scope
    | none => .error "Failed to find variable in scope") scope

/-- The while-loop condition of the desugared `for`
(src/translate/statements.rs, lines 560-564): the translated condition, or
the literal `true` when the `for` statement has none. -/
def translate_for_condition (texpr : ExpressionTranslator) (scope : TranslationScope) :
    Option solidity.Expression → Except String (sway.Expression × TranslationScope)
  | some condition => texpr scope condition
  | none => .ok (.Literal (.Bool true), scope)

/-- The update expression appended to the loop body
(src/translate/statements.rs, lines 577-602): standalone pre/post
decrements become `-=` by the literal `1`, pre/post increments `+=` by the
literal `1`, anything else is translated as an ordinary expression. -/
def translate_for_update (texpr : ExpressionTranslator) (tassign : AssignmentTranslator)
    (scope : TranslationScope) (update : solidity.Expression) :
    Except String (sway.Expression × TranslationScope) :=
  match update with
  | .PreDecrement x => tassign scope "-=" x (.NumberLiteral "1" "")
  | .PostDecrement x => tassign scope "-=" x (.NumberLiteral "1" "")
  | .PreIncrement x => tassign scope "+=" x (.NumberLiteral "1" "")
  | .PostIncrement x => tassign scope "+=" x (.NumberLiteral "1" "")
  | u => texpr scope u

/-- `translate_for_statement` (src/translate/statements.rs, lines 513-620):
desugar `for (init; cond; update) body` into
`{ init; while cond { body; update } }` built inside a dedicated child scope
(a fresh frame pushed in front of the caller's chain).  The first returned
component is the produced block statement; the second is the caller-visible
scope after the call — the parent chain of the final inner scope, since the
dedicated child frame is dropped when the source function returns. -/
def translate_for_statement {SolStmt : Type}
    (tstmt : StatementTranslator SolStmt) (texpr : ExpressionTranslator)
    (tassign : AssignmentTranslator) (scope : TranslationScope)
    (initialization : Option SolStmt) (condition : Option solidity.Expression)
    (update : Option solidity.Expression) (body : Option SolStmt) :
    Except String (sway.Statement × TranslationScope) := do
  let inner_scope : TranslationScope := { «variables» := [], functions := [] } :: scope
  let (statements, inner_scope) ←
    match initialization with
    | some initialization => do
      let statement_index := 0
      let (statement, inner_scope) ← tstmt inner_scope initialization
      let inner_scope ←
        match statement with
        | .Let l =>
          store_let_identifier_statement_indices inner_scope
            (sway.LetPattern.ids l.pattern) statement_index
        | _ => Except.ok inner_scope
      Except.ok ([statement], inner_scope)
    | none => Except.ok (([] : List sway.Statement), inner_scope)
  let (condition, inner_scope) ← translate_for_condition texpr inner_scope condition
  let (body_block, inner_scope) ←
    match body with
    | none => Except.ok (sway.Block.mk [] none, inner_scope)
    | some body => do
      let (statement, inner_scope) ← tstmt inner_scope body
      Except.ok
        (match statement with
         | .Expression (.Block block) => block
         | statement => .mk [statement] none, inner_scope)
  let (body_block, inner_scope) ←
    match update with
    | none => Except.ok (body_block, inner_scope)
    | some update => do
      let (e, inner_scope) ← translate_for_update texpr tassign inner_scope update
      Except.ok (sway.Block.mk (body_block.statements ++ [.Expression e])
        body_block.final_expr, inner_scope)
  let statements := statements ++ [sway.Statement.Expression (.While condition body_block)]
  let block ← finalize_block_translation inner_scope (.mk statements none)
  .ok (.Expression (.Block block),
       match inner_scope with | [] => [] | _ :: parent => parent)

/-! ## Specification-side definitions used to state the claims -/

/-- `scope.borrow_mut().variables.push(variable)`: append a binding to the
innermost frame of a scope. -/
def push_variable : TranslationScope → TranslatedVariable → TranslationScope
  | [], v => [{ «variables» := [v], functions := [] }]
  | f :: parent, v => { f with «variables» := f.variables ++ [v] } :: parent

/-- `k` underscores, as prepended by `generate_unique_variable_name`. -/
def underscores : Nat → String
  | 0 => ""
  | k + 1 => "_" ++ underscores k

/-- Whether a type name makes `getter_function_parameters_and_return_type`
produce parameters: exactly the storage-map and storage-vector identifiers
carrying generic arguments. -/
def has_getter_parameters : sway.TypeName → Bool
  | .Identifier name (some _) => name == "StorageMap" || name == "StorageVec"
  | _ => false

/-- Specification-side description of a storage-map type of one or more
nesting levels, as `translate_type_name` builds it for a Solidity `mapping`:
`StorageMapChain t keys value` holds when `t` is
`StorageMap<keys[0], StorageMap<keys[1], ... value>>` and the innermost
`value` is a defined type that itself takes no getter parameters. -/
inductive StorageMapChain : sway.TypeName → List sway.TypeName → sway.TypeName → Prop where
  | base (k v : sway.TypeName) (hu : v ≠ .Undefined)
      (hv : has_getter_parameters v = false) :
      StorageMapChain (.Identifier "StorageMap" (some [(k, none), (v, none)])) [k] v
  | nest (k inner : sway.TypeName) (keys : List sway.TypeName) (value : sway.TypeName)
      (h : StorageMapChain inner keys value) :
      StorageMapChain (.Identifier "StorageMap" (some [(k, none), (inner, none)]))
        (k :: keys) value

/-- The number of storage-map nesting levels of a type name: how often the
type is a `StorageMap` whose value component continues the chain. -/
def map_nesting_levels : sway.TypeName → Nat
  | .Identifier name (some ((_, _) :: (v, _) :: _)) =>
    if name = "StorageMap" then 1 + map_nesting_levels v else 0
  | _ => 0

/-- Specification-side accessor chain written from the claim:
`storage.<field>.get(a). ... .get(<last>).read()`, built from the parameter
names alone (no `unwrap` steps). -/
def spec_getter_chain (new_name : String) (parameter_names : List String) :
    sway.Expression :=
  .FunctionCall
    (.MemberAccess
      (parameter_names.foldl
        (fun e n => .FunctionCall (.MemberAccess e "get") none [.Identifier n])
        (.MemberAccess (.Identifier "storage") new_name))
      "read")
    none []

/-! ## Supporting lemmas -/

theorem underscores_append_shift (k : Nat) (s : String) :
    underscores k ++ ("_" ++ s) = underscores (k + 1) ++ s := by
  induction k generalizing s with
  | zero =>
    show "" ++ ("_" ++ s) = ("_" ++ "") ++ s
    rw [String.empty_append, String.append_empty]
  | succ k ih =>
    show ("_" ++ underscores k) ++ ("_" ++ s) = ("_" ++ underscores (k + 1)) ++ s
    rw [String.append_assoc, ih, String.append_assoc]

theorem find_variable_eq_find (s : TranslationScope) (p : TranslatedVariable → Bool) :
    find_variable s p = (forward_visible_variables s).find? p := by
  induction s with
  | nil => rfl
  | cons f parent ih =>
    simp only [find_variable, forward_visible_variables, List.find?_append, ih]
    cases f.variables.find? p <;> simp [Option.or]

theorem find_function_eq_find (s : TranslationScope) (p : TranslatedFunction → Bool) :
    find_function s p = (forward_visible_functions s).find? p := by
  induction s with
  | nil => rfl
  | cons f parent ih =>
    simp only [find_function, forward_visible_functions, List.find?_append, ih]
    cases f.functions.find? p <;> simp [Option.or]

/-! ## The claims -/

/-- C2, counterexample to the claim as stated: the claim requires an
unrecoverable error exactly when the width is 0 or above 256, but
`translate_uint_type_name 0` falls into the source's `0..=8` warning arm and
succeeds with the 8-bit type (and a warning) instead of failing. -/
theorem claim_C2_counterexample :
    translate_uint_type_name 0 = some ("u8", true)
      ∧ translate_uint_type_name 0 ≠ none := by
  constructor
  · rfl
  · intro h
    simp [translate_uint_type_name] at h

/-- C2 (amended): `translate_type_name` maps an unsigned integer width to
the rounded-up supported width — 1–8 (and also 0) to the 8-bit type, 9–16 to
16 bits, 17–32 to 32 bits, 33–64 to 64 bits, 65–256 to 256 bits — warning
exactly when the width is not one of 8, 16, 32, 64, 256 (so already-canonical
widths map to themselves with no warning), and fails with an unrecoverable
error exactly when the width exceeds 256. -/
theorem claim_C2_uint_width_rounding :
    (∀ bits : Nat,
        translate_uint_type_name bits
          = (uint_width_rounded bits).map
              (fun w => ("u" ++ toString w, uint_width_warns bits)))
      ∧ translate_uint_type_name 8 = some ("u8", false)
      ∧ translate_uint_type_name 16 = some ("u16", false)
      ∧ translate_uint_type_name 32 = some ("u32", false)
      ∧ translate_uint_type_name 64 = some ("u64", false)
      ∧ translate_uint_type_name 256 = some ("u256", false)
      ∧ translate_uint_type_name 0 = some ("u8", true)
      ∧ translate_uint_type_name 257 = none := by
  refine ⟨?_, rfl, rfl, rfl, rfl, rfl, rfl, rfl⟩
  intro bits
  rcases Nat.lt_or_ge 256 bits with hgt | hle
  · unfold translate_uint_type_name uint_width_rounded
    iterate 10 rw [if_neg (by omega)]
    rw [if_pos hgt]
    rfl
  · interval_cases bits <;> rfl

/-- C5: `get_variable_from_new_name` returns the innermost visible binding
with the requested new name — it scans the bindings in the order “local
entries in reverse insertion order, then the parent chain” and returns the
first match — and pushing a shadowing binding with the same new name into a
child scope leaves the same lookup on the parent scope unchanged (the
child's parent chain is the untouched parent scope). -/
theorem claim_C5_innermost_lookup :
    (∀ (s : TranslationScope) (name : String),
        get_variable_from_new_name s name
          = (visible_variables s).find? (fun v => v.new_name == name))
      ∧ (∀ (child : ScopeFrame) (parent : TranslationScope)
          (v : TranslatedVariable) (name : String), v.new_name = name →
          get_variable_from_new_name (push_variable (child :: parent) v).tail name
            = get_variable_from_new_name parent name) := by
  constructor
  · exact get_variable_from_new_name_eq_find
  · intro child parent v name _
    rfl

theorem generate_unique_variable_name_spec (s : TranslationScope) :
    ∀ (fuel : Nat) (name : String),
      (max_new_name_length s + 1) - name.length ≤ fuel →
      ∃ k, generate_unique_variable_name s name = underscores k ++ name
        ∧ (get_variable_from_new_name s (underscores k ++ name)).isSome = false
        ∧ ∀ j, j < k →
            (get_variable_from_new_name s (underscores j ++ name)).isSome = true := by
  intro fuel
  induction fuel with
  | zero =>
    intro name hm
    have hfail : ¬ (get_variable_from_new_name s name).isSome = true := by
      intro h
      have := length_le_max_of_found s name h
      omega
    refine ⟨0, ?_, ?_, ?_⟩
    · rw [generate_unique_variable_name, dif_neg hfail]
      show name = "" ++ name
      rw [String.empty_append]
    · show (get_variable_from_new_name s ("" ++ name)).isSome = false
      rw [String.empty_append]
      simpa using hfail
    · intro j hj
      omega
  | succ fuel ih =>
    intro name hm
    by_cases h : (get_variable_from_new_name s name).isSome = true
    · have hlen : ("_" ++ name).length = name.length + 1 := by
        rw [String.length_append, show "_".length = 1 from rfl]
        omega
      have hmeasure : (max_new_name_length s + 1) - ("_" ++ name).length ≤ fuel := by
        have := length_le_max_of_found s name h
        omega
      obtain ⟨k, hk, hfail, hall⟩ := ih ("_" ++ name) hmeasure
      refine ⟨k + 1, ?_, ?_, ?_⟩
      · rw [generate_unique_variable_name, dif_pos h, hk, underscores_append_shift]
      · rw [← underscores_append_shift]
        exact hfail
      · intro j hj
        match j, hj with
        | 0, _ =>
          show (get_variable_from_new_name s ("" ++ name)).isSome = true
          rw [String.empty_append]
          exact h
        | j + 1, hj =>
          rw [← underscores_append_shift]
          exact hall j (by omega)
    · refine ⟨0, ?_, ?_, ?_⟩
      · rw [generate_unique_variable_name, dif_neg h]
        show name = "" ++ name
        rw [String.empty_append]
      · show (get_variable_from_new_name s ("" ++ name)).isSome = false
        rw [String.empty_append]
        simpa using h
      · intro j hj
        omega

/-- C6: `generate_unique_variable_name` returns the first candidate in the
sequence `base`, `_base`, `__base`, … whose name no binding reachable
through the scope chain carries as its `new_name`; in particular, with `x`
and `_x` both visible, `generate_unique_variable_name "x"` returns `__x`. -/
theorem claim_C6_unique_name_generation :
    (∀ (s : TranslationScope) (name : String),
        ∃ k, generate_unique_variable_name s name = underscores k ++ name
          ∧ (get_variable_from_new_name s (underscores k ++ name)).isSome = false
          ∧ ∀ j, j < k →
              (get_variable_from_new_name s (underscores j ++ name)).isSome = true)
      ∧ generate_unique_variable_name
          [{ «variables» := [{ new_name := "x" }, { new_name := "_x" }] }] "x"
        = "__x" := by
  constructor
  · intro s name
    exact generate_unique_variable_name_spec s _ name le_rfl
  · rw [generate_unique_variable_name, dif_pos (by decide)]
    rw [generate_unique_variable_name, dif_pos (by decide)]
    rw [generate_unique_variable_name, dif_neg (by decide)]
    rfl

/-- C9, counterexample to the claim as stated: the claim requires
`find_variable` to examine local entries in reverse insertion order (most
recent declaration first), but the source searches them with
`self.variables.iter().find(f)`, in forward insertion order — with two
visible entries both satisfying the predicate, the earlier-declared entry
is returned. -/
theorem claim_C9_counterexample :
    find_variable
        [{ «variables» :=
            [{ new_name := "first", is_storage := true },
             { new_name := "second", is_storage := true }] }]
        (fun v => v.is_storage)
      = some { new_name := "first", is_storage := true }
      ∧ ("first" : String) ≠ "second" := by
  constructor
  · rfl
  · decide

/-- C9 (amended): `find_variable` and `find_function` search each scope's
local entries in forward insertion order (earliest declaration first) before
delegating to the parent chain; of several visible entries satisfying the
predicate, the earliest-declared one in the nearest enclosing scope that has
any is returned. -/
theorem claim_C9_forward_order :
    (∀ (s : TranslationScope) (p : TranslatedVariable → Bool),
        find_variable s p = (forward_visible_variables s).find? p)
      ∧ (∀ (s : TranslationScope) (p : TranslatedFunction → Bool),
        find_function s p = (forward_visible_functions s).find? p) :=
  ⟨find_variable_eq_find, find_function_eq_find⟩

/-- C10: whenever `translate_state_variable` synthesizes a getter (with any
parameter list, in particular a non-empty one for a map or vector type), the
forwarding wrapper placed in the contract's impl block declares exactly the
ABI getter's parameter list and name, but its body calls the top-level
getter `::<name>` with an empty argument list — no wrapper parameter is
forwarded. -/
theorem claim_C10_wrapper_forwards_no_arguments
    (is_storage is_constant : Bool) (new_name : String) (t : sway.TypeName)
    (abi_f top_f wrap_f : sway.Function)
    (h : translate_state_variable_getter true is_storage is_constant new_name t
          = .ok (some (abi_f, top_f, .Function wrap_f)))
    (hps : abi_f.parameters.entries ≠ []) :
    wrap_f.parameters = abi_f.parameters
      ∧ wrap_f.name = abi_f.name
      ∧ wrap_f.body = some (.mk []
          (some (.FunctionCall (.Identifier ("::" ++ abi_f.name)) none []))) := by
  unfold translate_state_variable_getter at h
  rw [if_neg (by decide)] at h
  rcases hg : sway.getter_function_parameters_and_return_type t with e | g <;>
    rw [hg] at h
  · simp only [bind, Except.bind] at h
    cases h
  · rcases g with _ | ⟨ps, rt⟩ <;>
      rcases is_storage with _ | _ <;> rcases is_constant with _ | _ <;>
      simp only [bind, Except.bind, Bool.false_eq_true, if_true, if_false,
        reduceIte, Except.ok.injEq, Option.some.injEq, Prod.mk.injEq,
        sway.ImplItem.Function.injEq] at h
    all_goals first
      | (obtain ⟨h1, h2, h3⟩ := h
         subst h1
         first
           | exact absurd rfl hps
           | (subst h2; subst h3; exact ⟨rfl, rfl, rfl⟩))
      | cases h

/-- C10, witness: for the public storage field `balances` of type
`StorageMap<Identity, u64>`, the synthesized impl-block wrapper repeats the
getter's parameter list and name but calls `::balances` with no arguments. -/
theorem claim_C10_wrapper_forwards_no_arguments_witness :
    translate_state_variable_getter true true false "balances"
        (.Identifier "StorageMap" (some [(.Identifier "Identity" none, none),
          (.Identifier "u64" none, none)]))
      = Except.ok (some
          ({ attributes := some { attributes :=
               [{ name := "storage", parameters := some ["read"] }] },
             is_public := false,
             name := "balances",
             generic_parameters := none,
             parameters := { entries :=
               [{ is_ref := false,
                  is_mut := false,
                  name := "a",
                  type_name := some (sway.TypeName.Identifier "Identity" none) }] },
             return_type := some (sway.TypeName.Identifier "u64" none),
             body := none },
           { attributes := some { attributes :=
               [{ name := "storage", parameters := some ["read"] }] },
             is_public := false,
             name := "balances",
             generic_parameters := none,
             parameters := { entries :=
               [{ is_ref := false,
                  is_mut := false,
                  name := "a",
                  type_name := some (sway.TypeName.Identifier "Identity" none) }] },
             return_type := some (sway.TypeName.Identifier "u64" none),
             body := some (.mk [] (some (.FunctionCall
               (.MemberAccess
                 (.FunctionCall
                   (.MemberAccess (.MemberAccess (.Identifier "storage") "balances") "get")
                   none [.Identifier "a"])
                 "read")
               none []))) },
           sway.ImplItem.Function
           { attributes := some { attributes :=
               [{ name := "storage", parameters := some ["read"] }] },
             is_public := false,
             name := "balances",
             generic_parameters := none,
             parameters := { entries :=
               [{ is_ref := false,
                  is_mut := false,
                  name := "a",
                  type_name := some (sway.TypeName.Identifier "Identity" none) }] },
             return_type := some (sway.TypeName.Identifier "u64" none),
             body := some (.mk [] (some (.FunctionCall
               (.Identifier ("::" ++ "balances")) none []))) }))
      ∧ ("::" ++ "balances" : String) = "::balances" := by
  constructor
  · have h := claim_C10_wrapper_forwards_no_arguments true false "balances"
      (.Identifier "StorageMap" (some [(.Identifier "Identity" none, none),
        (.Identifier "u64" none, none)])) _ _ _ rfl
      (fun hc => List.cons_ne_nil _ _ hc)
    rfl
  · rfl

/-- C7: `translate_revert_statement` applied to a revert naming a known
error variant produces exactly a block of two statements — first a log call
whose sole argument is the errors-enum variant by itself when the revert has
no arguments, the variant applied to the single translated argument when it
has one, or the variant applied to a tuple of the translated arguments when
it has more — and second a revert call whose sole argument is the literal
integer zero. -/
theorem claim_C7_revert_lowering
    (texpr : ExpressionTranslator) (errors_enums : List (sway.Enum × sway.Impl))
    (scope scope1 : TranslationScope) (variant_name : String) (rest : List String)
    (parameters : List solidity.Expression)
    (errors_enum : sway.Enum) (enum_impl : sway.Impl) (args : List sway.Expression)
    (hfind : errors_enums.find?
        (fun ei => ei.1.variants.any (fun v => v.name == variant_name))
      = some (errors_enum, enum_impl))
    (hargs : translate_expression_list texpr scope parameters = .ok (args, scope1)) :
    ∃ payload,
      translate_revert_statement texpr errors_enums scope
          (some (variant_name :: rest)) parameters
        = .ok (.Expression (.Block (.mk
            [ .Expression (.FunctionCall (.Identifier "log") none [payload]),
              .Expression (.FunctionCall (.Identifier "revert") none
                [.Literal (.DecInt 0)]) ]
            none)), scope1)
      ∧ (parameters = [] →
          payload = .Identifier (errors_enum.name ++ "::" ++ variant_name) ∧ scope1 = scope)
      ∧ (∀ p, parameters = [p] → ∃ e, args = [e] ∧ payload
            = .FunctionCall (.Identifier (errors_enum.name ++ "::" ++ variant_name)) none [e])
      ∧ (2 ≤ parameters.length → payload
            = .FunctionCall (.Identifier (errors_enum.name ++ "::" ++ variant_name)) none
                [.Tuple args]) := by
  have hfe : find_errors_enum errors_enums variant_name = .ok errors_enum := by
    unfold find_errors_enum
    rw [hfind]
  match parameters, hargs with
  | [], hargs =>
    simp only [translate_expression_list, Except.ok.injEq, Prod.mk.injEq] at hargs
    obtain ⟨rfl, rfl⟩ := hargs
    refine ⟨.Identifier (errors_enum.name ++ "::" ++ variant_name), ?_, ?_, ?_, ?_⟩
    · unfold translate_revert_statement
      simp only [List.head?, bind, Except.bind, hfe, error_log_payload,
        revert_zero_statement]
    · exact fun _ => ⟨rfl, rfl⟩
    · intro p hp
      cases hp
    · intro h2
      simp at h2
  | [p], hargs =>
    rcases he : texpr scope p with e | es
    · simp only [translate_expression_list, he, bind, Except.bind] at hargs
      cases hargs
    · obtain ⟨e, s⟩ := es
      simp only [translate_expression_list, he, bind, Except.bind,
        Except.ok.injEq, Prod.mk.injEq] at hargs
      obtain ⟨rfl, rfl⟩ := hargs
      refine ⟨.FunctionCall (.Identifier (errors_enum.name ++ "::" ++ variant_name))
        none [e], ?_, ?_, ?_, ?_⟩
      · unfold translate_revert_statement
        simp only [List.head?, bind, Except.bind, hfe, error_log_payload, he,
          revert_zero_statement]
      · intro hnil
        cases hnil
      · intro q hq
        obtain rfl : q = p := by cases hq; rfl
        exact ⟨e, rfl, rfl⟩
      · intro h2
        simp at h2
  | p1 :: p2 :: ps, hargs =>
    refine ⟨.FunctionCall (.Identifier (errors_enum.name ++ "::" ++ variant_name))
      none [.Tuple args], ?_, ?_, ?_, ?_⟩
    · unfold translate_revert_statement
      simp only [List.head?, bind, Except.bind, hfe, error_log_payload, hargs,
        revert_zero_statement]
    · intro hnil
      cases hnil
    · intro q hq
      cases hq
    · intro _
      rfl

/-- C7, witness: `revert InsufficientBalance(amount)` against an errors enum
`MyErrors` with the single-field variant `InsufficientBalance` lowers to the
two-statement block `log(MyErrors::InsufficientBalance(amount)); revert(0)`. -/
theorem claim_C7_revert_lowering_witness :
    translate_revert_statement
        (fun s _ => .ok (.Identifier "amount", s))
        [({ attributes := none,
            is_public := false,
            name := "MyErrors",
            generic_parameters := none,
            variants := [{ name := "InsufficientBalance",
                           type_name := .Identifier "u64" none }] },
          { generic_parameters := none,
            type_name := .Identifier "AbiEncode" none,
            for_type_name := some (.Identifier "MyErrors" none),
            items := [] })]
        [] (some ["InsufficientBalance"]) [.Variable "amount"]
      = .ok (.Expression (.Block (.mk
          [ .Expression (.FunctionCall (.Identifier "log") none
              [.FunctionCall (.Identifier "MyErrors::InsufficientBalance") none
                [.Identifier "amount"]]),
            .Expression (.FunctionCall (.Identifier "revert") none
              [.Literal (.DecInt 0)]) ]
          none)), []) := by
  obtain ⟨payload, h1, -, h3, -⟩ :=
    claim_C7_revert_lowering
      (fun s _ => .ok (.Identifier "amount", s))
      [({ attributes := none,
          is_public := false,
          name := "MyErrors",
          generic_parameters := none,
          variants := [{ name := "InsufficientBalance",
                         type_name := .Identifier "u64" none }] },
        { generic_parameters := none,
          type_name := .Identifier "AbiEncode" none,
          for_type_name := some (.Identifier "MyErrors" none),
          items := [] })]
      [] [] "InsufficientBalance" [] [.Variable "amount"]
      _ _ [.Identifier "amount"] rfl rfl
  obtain ⟨e, he, hp⟩ := h3 (.Variable "amount") rfl
  obtain rfl : e = .Identifier "amount" := by cases he; rfl
  subst hp
  exact h1

/-- C3: during block finalization, every nested sub-block statement whose
`let` declarations shadow no binding visible in the parent scope is
flattened in place — the wrapper statement is removed and the enclosing
statement list contains the sub-block's statements at that position; in
particular, finalizing a block whose only statement is the sub-block
`{ let y = 1; y }` under a parentless scope yields the block containing
`let y = 1` directly, with no residual nested-block wrapper statement. -/
theorem claim_C3_dead_scope_flattening :
    (∀ (scope : TranslationScope) (pre post : List sway.Statement) (sub : sway.Block),
        shadowing_let_count scope sub.statements = 0 →
        flatten_sub_blocks scope
            (pre ++ sway.Statement.Expression (.Block sub) :: post)
          = flatten_sub_blocks scope pre ++ sub.statements
              ++ flatten_sub_blocks scope post)
      ∧ finalize_block_translation [{ «variables» := [], functions := [] }]
          (.mk [ .Expression (.Block (.mk
              [ .Let (.mk (.Identifier { is_mutable := false, name := "y" }) none
                  (.Literal (.DecInt 1))) ]
              (some (.Identifier "y")))) ]
            none)
        = .ok (.mk
            [ .Let (.mk (.Identifier { is_mutable := false, name := "y" }) none
                (.Literal (.DecInt 1))) ]
            none) := by
  constructor
  · intro scope pre post sub h
    induction pre with
    | nil =>
      simp only [List.nil_append, flatten_sub_blocks, h]
      simp
    | cons s rest ih =>
      simp only [List.cons_append, flatten_sub_blocks, List.append_eq] at ih ⊢
      rw [ih]
      simp [List.append_assoc]
  · rfl

theorem mark_let_identifier_mutable_name (m : String) (id : sway.LetIdentifier) :
    (mark_let_identifier_mutable m id).name = id.name := by
  unfold mark_let_identifier_mutable
  split <;> rfl

theorem mark_let_identifier_mutable_mono (m : String) (id : sway.LetIdentifier)
    (h : id.is_mutable = true) : (mark_let_identifier_mutable m id).is_mutable = true := by
  unfold mark_let_identifier_mutable
  split <;> simp [h]

theorem mark_let_identifier_mutable_sets (m : String) (id : sway.LetIdentifier)
    (h : id.name = m) : (mark_let_identifier_mutable m id).is_mutable = true := by
  unfold mark_let_identifier_mutable
  rw [if_pos (by simp [h])]

theorem mark_let_statement_ids (m : String) (l : sway.Let) :
    sway.LetPattern.ids (mark_let_statement m l).pattern
      = (sway.LetPattern.ids l.pattern).map (mark_let_identifier_mutable m) := by
  obtain ⟨p, t, v⟩ := l
  cases p <;> rfl

theorem mark_let_statement_marks (m : String) (l : sway.Let) :
    ∀ id ∈ sway.LetPattern.ids (mark_let_statement m l).pattern,
      id.name = m → id.is_mutable = true := by
  rw [mark_let_statement_ids]
  intro id hid hname
  obtain ⟨id0, hid0, rfl⟩ := List.mem_map.mp hid
  rw [mark_let_identifier_mutable_name] at hname
  exact mark_let_identifier_mutable_sets _ _ hname

theorem filter_ids_mark_ne (m n : String) (hmn : m ≠ n)
    (ids : List sway.LetIdentifier) :
    (ids.map (mark_let_identifier_mutable m)).filter (fun id => id.name == n)
      = ids.filter (fun id => id.name == n) := by
  induction ids with
  | nil => rfl
  | cons id rest ih =>
    simp only [List.map_cons, List.filter_cons]
    rw [mark_let_identifier_mutable_name]
    by_cases hn : (id.name == n) = true
    · have hid : mark_let_identifier_mutable m id = id := by
        unfold mark_let_identifier_mutable
        rw [if_neg]
        simp only [beq_iff_eq]
        intro hc
        exact hmn (by rw [← hc, (beq_iff_eq ..).mp hn])
      simp [hn, hid, ih]
    · rw [Bool.not_eq_true] at hn
      simp [hn, ih]

/-- Once every identifier of the let statement at position `i` that is named
`n` is mutable, the remaining rounds of the mutability pass keep the
statement a `let` with that property (marking never clears a flag). -/
theorem mark_mutable_declarations_preserves_marked (n : String) (i : Nat) :
    ∀ (vars : List TranslatedVariable) (stmts res : List sway.Statement),
      mark_mutable_declarations vars stmts = .ok res →
      ∀ l, stmts[i]? = some (.Let l) →
      (∀ id ∈ sway.LetPattern.ids l.pattern, id.name = n → id.is_mutable = true) →
      ∃ l2, res[i]? = some (.Let l2)
        ∧ ∀ id ∈ sway.LetPattern.ids l2.pattern, id.name = n → id.is_mutable = true := by
  intro vars
  induction vars with
  | nil =>
    intro stmts res h l hl hm
    obtain rfl : stmts = res := by
      cases h
      rfl
    exact ⟨l, hl, hm⟩
  | cons w ws ih =>
    intro stmts res h l hl hm
    unfold mark_mutable_declarations at h
    rcases hidx : w.statement_index with _ | j <;> rw [hidx] at h <;>
      simp only [] at h
    · exact ih _ _ h l hl hm
    · by_cases hc : 0 < w.mutation_count
      · rw [if_pos hc] at h
        rcases hsj : stmts[j]? with _ | sj <;> rw [hsj] at h
        · simp only [] at h
          cases h
        · cases sj with
          | Expression e =>
            simp only [] at h
            cases h
          | Let lj =>
            simp only [] at h
            by_cases hji : j = i
            · subst hji
              have hlj : lj = l := by
                rw [hl] at hsj
                injection hsj with hsj
                injection hsj with hsj
                exact hsj.symm
              subst hlj
              have hlt : j < stmts.length := by
                rcases List.getElem?_eq_some.mp hl with ⟨hlt, -⟩
                exact hlt
              refine ih _ _ h (mark_let_statement w.new_name lj) ?_ ?_
              · rw [List.getElem?_set_self hlt]
              · rw [mark_let_statement_ids]
                intro id hid hname
                obtain ⟨id0, hid0, rfl⟩ := List.mem_map.mp hid
                rw [mark_let_identifier_mutable_name] at hname
                exact mark_let_identifier_mutable_mono _ _ (hm id0 hid0 hname)
            · refine ih _ _ h l ?_ hm
              rw [List.getElem?_set_ne hji]
              exact hl
      · rw [if_neg hc] at h
        exact ih _ _ h l hl hm

/-- The mutability pass marks: for every processed variable with a recorded
statement index and a nonzero mutation count, the output's statement at that
index is a `let` whose identifiers named like the variable are mutable. -/
theorem mark_mutable_declarations_marks :
    ∀ (vars : List TranslatedVariable) (stmts res : List sway.Statement),
      mark_mutable_declarations vars stmts = .ok res →
      ∀ v ∈ vars, ∀ i, v.statement_index = some i → 0 < v.mutation_count →
      ∃ l2, res[i]? = some (.Let l2)
        ∧ ∀ id ∈ sway.LetPattern.ids l2.pattern,
            id.name = v.new_name → id.is_mutable = true := by
  intro vars
  induction vars with
  | nil =>
    intro stmts res h v hv
    cases hv
  | cons w ws ih =>
    intro stmts res h v hv i hi hc
    unfold mark_mutable_declarations at h
    rcases List.mem_cons.mp hv with rfl | hv
    · rw [hi] at h
      simp only [] at h
      rw [if_pos hc] at h
      rcases hsj : stmts[i]? with _ | sj <;> rw [hsj] at h
      · simp only [] at h
        cases h
      · cases sj with
        | Expression e =>
          simp only [] at h
          cases h
        | Let li =>
          simp only [] at h
          have hlt : i < stmts.length := by
            rcases List.getElem?_eq_some.mp hsj with ⟨hlt, -⟩
            exact hlt
          exact mark_mutable_declarations_preserves_marked v.new_name i ws _ _ h
            (mark_let_statement v.new_name li)
            (by rw [List.getElem?_set_self hlt])
            (mark_let_statement_marks v.new_name li)
    · rcases hidx : w.statement_index with _ | j <;> rw [hidx] at h <;>
        simp only [] at h
      · exact ih _ _ h v hv i hi hc
      · by_cases hcw : 0 < w.mutation_count
        · rw [if_pos hcw] at h
          rcases hsj : stmts[j]? with _ | sj <;> rw [hsj] at h
          · simp only [] at h
            cases h
          · cases sj with
            | Expression e =>
              simp only [] at h
              cases h
            | Let lj =>
              simp only [] at h
              exact ih _ _ h v hv i hi hc
        · rw [if_neg hcw] at h
          exact ih _ _ h v hv i hi hc

/-- The mutability pass leaves identifiers of other names untouched: when
no processed variable with a nonzero mutation count carries the name `n`,
the `let` statement at any position keeps its identifiers named `n`
exactly as they were. -/
theorem mark_mutable_declarations_untouched (n : String) (i : Nat) :
    ∀ (vars : List TranslatedVariable) (stmts res : List sway.Statement),
      mark_mutable_declarations vars stmts = .ok res →
      (∀ w ∈ vars, 0 < w.mutation_count → w.new_name ≠ n) →
      ∀ l0, stmts[i]? = some (.Let l0) →
      ∃ l1, res[i]? = some (.Let l1)
        ∧ (sway.LetPattern.ids l1.pattern).filter (fun id => id.name == n)
            = (sway.LetPattern.ids l0.pattern).filter (fun id => id.name == n) := by
  intro vars
  induction vars with
  | nil =>
    intro stmts res h hn l0 hl
    obtain rfl : stmts = res := by
      cases h
      rfl
    exact ⟨l0, hl, rfl⟩
  | cons w ws ih =>
    intro stmts res h hn l0 hl
    unfold mark_mutable_declarations at h
    have hnws : ∀ u ∈ ws, 0 < u.mutation_count → u.new_name ≠ n :=
      fun u hu => hn u (List.mem_cons_of_mem w hu)
    rcases hidx : w.statement_index with _ | j <;> rw [hidx] at h <;>
      simp only [] at h
    · exact ih _ _ h hnws l0 hl
    · by_cases hc : 0 < w.mutation_count
      · rw [if_pos hc] at h
        rcases hsj : stmts[j]? with _ | sj <;> rw [hsj] at h
        · simp only [] at h
          cases h
        · cases sj with
          | Expression e =>
            simp only [] at h
            cases h
          | Let lj =>
            simp only [] at h
            by_cases hji : j = i
            · subst hji
              have hlj : lj = l0 := by
                rw [hl] at hsj
                injection hsj with hsj
                injection hsj with hsj
                exact hsj.symm
              subst hlj
              have hlt : j < stmts.length := by
                rcases List.getElem?_eq_some.mp hl with ⟨hlt, -⟩
                exact hlt
              obtain ⟨l1, hl1, hfilter⟩ := ih _ _ h hnws (mark_let_statement w.new_name lj)
                (by rw [List.getElem?_set_self hlt])
              refine ⟨l1, hl1, ?_⟩
              rw [hfilter, mark_let_statement_ids,
                filter_ids_mark_ne w.new_name n (hn w (List.mem_cons_self w ws) hc)]
            · refine ih _ _ h hnws l0 ?_
              rw [List.getElem?_set_ne hji]
              exact hl
      · rw [if_neg hc] at h
        exact ih _ _ h hnws l0 hl

/-- A top-level `let` statement survives the sub-block flattening pass: only
block-expression statements are replaced. -/
theorem mem_flatten_sub_blocks (scope : TranslationScope) (l : sway.Let) :
    ∀ stmts : List sway.Statement,
      sway.Statement.Let l ∈ stmts → sway.Statement.Let l ∈ flatten_sub_blocks scope stmts := by
  intro stmts h
  induction stmts with
  | nil => cases h
  | cons s rest ih =>
    rcases List.mem_cons.mp h with rfl | h
    · simp [flatten_sub_blocks]
    · unfold flatten_sub_blocks
      exact List.mem_append_right _ (ih h)

/-- A top-level `let` statement survives the tail-block flattening pass: the
pass only pops a trailing block expression. -/
theorem mem_flatten_tail_block (l : sway.Let) (stmts : List sway.Statement)
    (h : sway.Statement.Let l ∈ stmts) :
    sway.Statement.Let l ∈ flatten_tail_block stmts := by
  unfold flatten_tail_block
  split
  · rename_i inner heq
    have hne : stmts ≠ [] := by
      intro h0
      rw [h0] at heq
      cases heq
    rw [← List.dropLast_append_getLast hne] at h
    rcases List.mem_append.mp h with h | h
    · exact List.mem_append_left _ h
    · rw [List.mem_singleton] at h
      rw [List.getLast?_eq_getLast stmts hne] at heq
      injection heq with heq
      rw [← h] at heq
      cases heq
  · exact h

/-- C4: after `finalize_block_translation` completes on a block (under the
scope invariant that the visible `new_name`s of the block's own variables
are distinct), every variable of the block's scope that records a declaring
let statement and a nonzero mutation counter has that declaration present in
the finalized block with every identifier of its name marked mutable, and
every such variable with a zero mutation counter keeps the identifiers of
its name in its declaring let statement exactly as declared (in particular
immutable if declared immutable). -/
theorem claim_C4_mutability_backpatch
    (scope : TranslationScope) (block result : sway.Block)
    (h : finalize_block_translation scope block = .ok result)
    (hnd : ((scope_own_variables scope).map (fun v => v.new_name)).Nodup)
    (v : TranslatedVariable) (hv : v ∈ scope_own_variables scope)
    (i : Nat) (hi : v.statement_index = some i) :
    (0 < v.mutation_count →
      ∃ l, sway.Statement.Let l ∈ result.statements
        ∧ ∀ id ∈ sway.LetPattern.ids l.pattern,
            id.name = v.new_name → id.is_mutable = true)
    ∧ (v.mutation_count = 0 →
      ∀ l0, block.statements[i]? = some (.Let l0) →
      ∃ l1, sway.Statement.Let l1 ∈ result.statements
        ∧ (sway.LetPattern.ids l1.pattern).filter (fun id => id.name == v.new_name)
            = (sway.LetPattern.ids l0.pattern).filter (fun id => id.name == v.new_name)) := by
  unfold finalize_block_translation at h
  rcases hmmd : mark_mutable_declarations (scope_own_variables scope) block.statements
    with e | stmts1 <;> rw [hmmd] at h <;> simp only [bind, Except.bind] at h
  · cases h
  · obtain rfl : sway.Block.mk
        (flatten_tail_block (flatten_sub_blocks scope stmts1)) block.final_expr = result := by
      injection h
    constructor
    · intro hc
      obtain ⟨l2, hl2, hm⟩ := mark_mutable_declarations_marks _ _ _ hmmd v hv i hi hc
      exact ⟨l2, mem_flatten_tail_block _ _
        (mem_flatten_sub_blocks scope l2 _ (List.getElem?_mem hl2)), hm⟩
    · intro hc l0 hl0
      have hn : ∀ w ∈ scope_own_variables scope,
          0 < w.mutation_count → w.new_name ≠ v.new_name := by
        intro w hw hwc hne
        have hwv : w = v := List.inj_on_of_nodup_map hnd hw hv hne
        rw [hwv, hc] at hwc
        omega
      obtain ⟨l1, hl1, hfil⟩ :=
        mark_mutable_declarations_untouched v.new_name i _ _ _ hmmd hn l0 hl0
      exact ⟨l1, mem_flatten_tail_block _ _
        (mem_flatten_sub_blocks scope l1 _ (List.getElem?_mem hl1)), hfil⟩

/-- C4, witness: finalizing a block `let x = 1; let y = 2` under a scope
where `x` records one mutation and `y` none re-marks `x` mutable and keeps
`y` immutable. -/
theorem claim_C4_mutability_backpatch_witness :
    (∃ l, sway.Statement.Let l ∈ (sway.Block.mk
        [ .Let (.mk (.Identifier { is_mutable := true, name := "x" }) none
            (.Literal (.DecInt 1))),
          .Let (.mk (.Identifier { is_mutable := false, name := "y" }) none
            (.Literal (.DecInt 2))) ]
        none).statements
      ∧ ∀ id ∈ sway.LetPattern.ids l.pattern, id.name = "x" → id.is_mutable = true)
    ∧ (∃ l1, sway.Statement.Let l1 ∈ (sway.Block.mk
        [ .Let (.mk (.Identifier { is_mutable := true, name := "x" }) none
            (.Literal (.DecInt 1))),
          .Let (.mk (.Identifier { is_mutable := false, name := "y" }) none
            (.Literal (.DecInt 2))) ]
        none).statements
      ∧ (sway.LetPattern.ids l1.pattern).filter (fun id => id.name == "y")
          = (sway.LetPattern.ids
              (sway.LetPattern.Identifier { is_mutable := false, name := "y" })).filter
              (fun id => id.name == "y")) := by
  constructor
  · exact (claim_C4_mutability_backpatch
      [{ «variables» :=
          [{ new_name := "x", statement_index := some 0, mutation_count := 1 },
           { new_name := "y", statement_index := some 1, mutation_count := 0 }] }]
      (.mk [ .Let (.mk (.Identifier { is_mutable := false, name := "x" }) none
                (.Literal (.DecInt 1))),
             .Let (.mk (.Identifier { is_mutable := false, name := "y" }) none
                (.Literal (.DecInt 2))) ] none)
      _ rfl (by decide)
      { new_name := "x", statement_index := some 0, mutation_count := 1 }
      (List.mem_cons_self _ _) 0 rfl).1 (by decide)
  · exact (claim_C4_mutability_backpatch
      [{ «variables» :=
          [{ new_name := "x", statement_index := some 0, mutation_count := 1 },
           { new_name := "y", statement_index := some 1, mutation_count := 0 }] }]
      (.mk [ .Let (.mk (.Identifier { is_mutable := false, name := "x" }) none
                (.Literal (.DecInt 1))),
             .Let (.mk (.Identifier { is_mutable := false, name := "y" }) none
                (.Literal (.DecInt 2))) ] none)
      _ rfl (by decide)
      { new_name := "y", statement_index := some 1, mutation_count := 0 }
      (List.mem_cons_of_mem _ (List.mem_cons_self _ _)) 1 rfl).2 rfl
      (.mk (.Identifier { is_mutable := false, name := "y" }) none
        (.Literal (.DecInt 2))) rfl

theorem getter_none_of_no_parameters (v : sway.TypeName) (hu : v ≠ .Undefined)
    (hv : has_getter_parameters v = false) :
    sway.getter_function_parameters_and_return_type v = .ok none := by
  cases v with
  | Undefined => exact absurd rfl hu
  | Identifier name gps =>
    cases gps with
    | none => rfl
    | some gl =>
      unfold has_getter_parameters at hv
      simp only [Bool.or_eq_false_iff, beq_eq_false_iff_ne, ne_eq] at hv
      unfold sway.getter_function_parameters_and_return_type
      rw [if_neg hv.1, if_neg hv.2]
  | Array t n => rfl
  | Tuple ts => rfl
  | StringSlice => rfl
  | StringArray n => rfl

theorem parameter_letters_length (n : Nat) (hn : n ≤ 25) :
    (sway.parameter_letters n).length = n := by
  unfold sway.parameter_letters
  rw [List.length_take, List.length_map, List.length_range]
  omega

theorem parameter_letters_getElem (n i : Nat) (hi : i < n) (hn : n ≤ 25) :
    (sway.parameter_letters n)[i]? = some (String.singleton (Char.ofNat (97 + i))) := by
  unfold sway.parameter_letters
  rw [List.getElem?_take, if_pos hi, List.getElem?_map, List.getElem?_range (by omega)]
  rfl

theorem rename_getter_parameters_length (ps : List (sway.Parameter × Bool)) :
    (sway.rename_getter_parameters ps).length = ps.length := by
  unfold sway.rename_getter_parameters
  rw [List.length_map, List.enum_length]

theorem rename_getter_parameters_getElem (ps : List (sway.Parameter × Bool))
    (hlen : ps.length ≤ 25) (i : Nat) (hi : i < ps.length) :
    (sway.rename_getter_parameters ps)[i]?
      = ps[i]?.map (fun pb =>
          ({ pb.1 with name := String.singleton (Char.ofNat (97 + i)) }, pb.2)) := by
  unfold sway.rename_getter_parameters
  rw [List.getElem?_map, List.getElem?_enum, List.getElem?_eq_getElem hi]
  show some _ = some _
  simp only []
  rw [parameter_letters_getElem ps.length i hi hlen]

theorem rename_getter_parameters_names (ps : List (sway.Parameter × Bool))
    (hlen : ps.length ≤ 25) :
    (sway.rename_getter_parameters ps).map (fun pb => pb.1.name)
      = sway.parameter_letters ps.length := by
  apply List.ext_getElem?
  intro i
  rw [List.getElem?_map]
  by_cases hi : i < ps.length
  · rw [rename_getter_parameters_getElem ps hlen i hi, List.getElem?_eq_getElem hi,
      parameter_letters_getElem ps.length i hi hlen]
    rfl
  · rw [List.getElem?_eq_none (by rw [rename_getter_parameters_length]; omega),
      List.getElem?_eq_none (by rw [parameter_letters_length _ hlen]; omega)]
    rfl

theorem rename_getter_parameters_types (ps : List (sway.Parameter × Bool))
    (hlen : ps.length ≤ 25) :
    (sway.rename_getter_parameters ps).map (fun pb => pb.1.type_name)
      = ps.map (fun pb => pb.1.type_name) := by
  apply List.ext_getElem?
  intro i
  rw [List.getElem?_map, List.getElem?_map]
  by_cases hi : i < ps.length
  · rw [rename_getter_parameters_getElem ps hlen i hi, List.getElem?_eq_getElem hi]
    rfl
  · rw [List.getElem?_eq_none (by rw [rename_getter_parameters_length]; omega),
      List.getElem?_eq_none (by omega)]

theorem rename_getter_parameters_flags (ps : List (sway.Parameter × Bool))
    (hlen : ps.length ≤ 25) :
    (sway.rename_getter_parameters ps).map (fun pb => pb.2)
      = ps.map (fun pb => pb.2) := by
  apply List.ext_getElem?
  intro i
  rw [List.getElem?_map, List.getElem?_map]
  by_cases hi : i < ps.length
  · rw [rename_getter_parameters_getElem ps hlen i hi, List.getElem?_eq_getElem hi]
    rfl
  · rw [List.getElem?_eq_none (by rw [rename_getter_parameters_length]; omega),
      List.getElem?_eq_none (by omega)]

/-- The getter recursion on a chain of storage maps: one parameter per map
level, named with the successive lowercase letters, typed with the
successive key types, none needing an `unwrap`, returning the innermost
value type. -/
theorem getter_map_chain (t : sway.TypeName) (keys : List sway.TypeName)
    (value : sway.TypeName) (hchain : StorageMapChain t keys value) :
    keys.length ≤ 25 →
    ∃ ps, sway.getter_function_parameters_and_return_type t = .ok (some (ps, value))
      ∧ ps.length = keys.length
      ∧ ps.map (fun pb => pb.1.name) = sway.parameter_letters keys.length
      ∧ ps.map (fun pb => pb.1.type_name) = keys.map some
      ∧ ps.map (fun pb => pb.2) = List.replicate keys.length false := by
  induction hchain with
  | base k v hu hv =>
    intro hlen
    have hinner := getter_none_of_no_parameters v hu hv
    refine ⟨sway.rename_getter_parameters
      [({ name := "_", type_name := some k }, false)], ?_, ?_, ?_, ?_, ?_⟩
    · unfold sway.getter_function_parameters_and_return_type
      rw [if_pos rfl]
      simp only [hinner, bind, Except.bind]
    · rw [rename_getter_parameters_length]
      rfl
    · rw [rename_getter_parameters_names _ (by simp)]
      rfl
    · rw [rename_getter_parameters_types _ (by simp)]
      rfl
    · rw [rename_getter_parameters_flags _ (by simp)]
      rfl
  | nest k inner keys value hch ih =>
    intro hlen
    have hlen1 : keys.length ≤ 25 := by
      simp only [List.length_cons] at hlen
      omega
    obtain ⟨ps_in, hgin, hl_in, hn_in, ht_in, hf_in⟩ := ih hlen1
    have hlen2 : (((({ name := "_", type_name := some k } : sway.Parameter), false))
        :: ps_in).length ≤ 25 := by
      simp only [List.length_cons, hl_in]
      simp only [List.length_cons] at hlen
      omega
    refine ⟨sway.rename_getter_parameters
      (({ name := "_", type_name := some k }, false) :: ps_in), ?_, ?_, ?_, ?_, ?_⟩
    · unfold sway.getter_function_parameters_and_return_type
      rw [if_pos rfl]
      simp only [hgin, bind, Except.bind]
      rfl
    · rw [rename_getter_parameters_length]
      simp [hl_in]
    · rw [rename_getter_parameters_names _ hlen2]
      congr 1
      simp [hl_in]
    · rw [rename_getter_parameters_types _ hlen2]
      simp only [List.map_cons, ht_in]
    · rw [rename_getter_parameters_flags _ hlen2]
      simp only [List.map_cons, hf_in, List.length_cons, List.replicate_succ]

/-- The three synthesized functions of `translate_state_variable` for a
public storage field whose type yields getter parameters. -/
theorem translate_state_variable_getter_spec (new_name : String) (t : sway.TypeName)
    (ps : List (sway.Parameter × Bool)) (rt : sway.TypeName)
    (hg : sway.getter_function_parameters_and_return_type t = .ok (some (ps, rt))) :
    ∃ abi_f top_f wrap_f,
      translate_state_variable_getter true true false new_name t
        = .ok (some (abi_f, top_f, .Function wrap_f))
      ∧ abi_f.parameters.entries = ps.map (fun pb => pb.1)
      ∧ abi_f.return_type = some rt
      ∧ abi_f.name = new_name
      ∧ top_f.body = some (.mk [] (some (storage_getter_body new_name ps)))
      ∧ wrap_f.body = some (.mk [] (some (.FunctionCall
          (.Identifier ("::" ++ new_name)) none [])))
      ∧ wrap_f.parameters = abi_f.parameters := by
  refine
    ⟨{ attributes := some { attributes :=
         [{ name := "storage", parameters := some ["read"] }] },
       is_public := false,
       name := new_name,
       generic_parameters := none,
       parameters := { entries := ps.map (fun pb => pb.1) },
       return_type := some rt,
       body := none },
     { attributes := some { attributes :=
         [{ name := "storage", parameters := some ["read"] }] },
       is_public := false,
       name := new_name,
       generic_parameters := none,
       parameters := { entries := ps.map (fun pb => pb.1) },
       return_type := some rt,
       body := some (.mk [] (some (storage_getter_body new_name ps))) },
     { attributes := some { attributes :=
         [{ name := "storage", parameters := some ["read"] }] },
       is_public := false,
       name := new_name,
       generic_parameters := none,
       parameters := { entries := ps.map (fun pb => pb.1) },
       return_type := some rt,
       body := some (.mk [] (some (.FunctionCall
         (.Identifier ("::" ++ new_name)) none []))) },
     ?_, rfl, rfl, rfl, rfl, rfl, rfl⟩
  unfold translate_state_variable_getter
  rw [if_neg (by decide)]
  simp only [hg, bind, Except.bind, if_true]

/-- When no parameter needs an `unwrap`, the synthesized accessor chain is
exactly the claim's `storage.<field>.get(a). ... .read()` chain over the
parameter names. -/
theorem storage_getter_body_no_unwrap (new_name : String) :
    ∀ (ps : List (sway.Parameter × Bool)), (∀ pb ∈ ps, pb.2 = false) →
    storage_getter_body new_name ps
      = spec_getter_chain new_name (ps.map (fun pb => pb.1.name)) := by
  suffices h : ∀ (ps : List (sway.Parameter × Bool)), (∀ pb ∈ ps, pb.2 = false) →
      ∀ acc : sway.Expression,
      ps.foldl (fun expression pb =>
        let expression := sway.Expression.FunctionCall
          (.MemberAccess expression "get") none [.Identifier pb.1.name]
        if pb.2 then
          sway.Expression.FunctionCall (.MemberAccess expression "unwrap") none []
        else
          expression) acc
      = (ps.map (fun pb => pb.1.name)).foldl
          (fun e n => sway.Expression.FunctionCall
            (.MemberAccess e "get") none [.Identifier n]) acc by
    intro ps hps
    unfold storage_getter_body spec_getter_chain
    rw [h ps hps]
  intro ps
  induction ps with
  | nil =>
    intro _ acc
    rfl
  | cons pb rest ih =>
    intro hps acc
    simp only [List.foldl_cons, List.map_cons]
    rw [show pb.2 = false from hps pb (List.mem_cons_self _ _)]
    simp only [Bool.false_eq_true, if_false]
    exact ih (fun q hq => hps q (List.mem_cons_of_mem _ hq)) _


theorem map_nesting_levels_zero_of_no_getter (v : sway.TypeName)
    (hv : has_getter_parameters v = false) : map_nesting_levels v = 0 := by
  cases v with
  | Undefined => rfl
  | Array _ _ => rfl
  | Tuple _ => rfl
  | StringSlice => rfl
  | StringArray _ => rfl
  | Identifier name gps =>
    cases gps with
    | none => rfl
    | some entries =>
      match entries with
      | [] => rfl
      | [_] => rfl
      | (k, i1) :: (w, i2) :: rest =>
        have hname : ¬ name = "StorageMap" := by
          unfold has_getter_parameters at hv
          simp only [Bool.or_eq_false_iff] at hv
          intro h
          rw [h] at hv
          exact absurd hv.1 (by decide)
        show (if name = "StorageMap" then 1 + map_nesting_levels w else 0) = 0
        rw [if_neg hname]

theorem map_nesting_levels_of_chain (t : sway.TypeName) (keys : List sway.TypeName)
    (value : sway.TypeName) (h : StorageMapChain t keys value) :
    map_nesting_levels t = keys.length := by
  induction h with
  | base k v hu hv =>
    show (if "StorageMap" = "StorageMap" then 1 + map_nesting_levels v else 0) = 1
    rw [if_pos rfl, map_nesting_levels_zero_of_no_getter v hv]
  | nest k inner keys value hch ih =>
    show (if "StorageMap" = "StorageMap" then 1 + map_nesting_levels inner else 0)
      = (k :: keys).length
    rw [if_pos rfl, ih, List.length_cons]
    omega

/-- C1 (amended): for a public storage variable whose type is a chain of
storage maps whose innermost value is itself no getter-bearing container,
the synthesized ABI getter has one parameter per map-nesting level, named
`a`, `b`, ... in order, typed with the successive key types, returns the
innermost value type, and the top-level function body is the chain
`storage.<field>.get(a). ... .get(<last>).read()`; concretely, the singly
nested `StorageMap<Identity, u64>` yields one parameter `a : Identity`
returning `u64` with body `storage.balances.get(a).read()`, and the doubly
nested map yields `a`, `b` in order with body
`storage.allowances.get(a).get(b).read()`.  (The unamended claim fails when
the innermost value is itself a `StorageMap`/`StorageVec`, see the
counterexample.) -/
theorem claim_C1_getter_synthesis :
    (∀ (new_name : String) (t : sway.TypeName) (keys : List sway.TypeName)
        (value : sway.TypeName),
      StorageMapChain t keys value → keys.length ≤ 25 →
      ∃ abi_f top_f wrap_f,
        translate_state_variable_getter true true false new_name t
          = .ok (some (abi_f, top_f, .Function wrap_f))
        ∧ abi_f.name = new_name
        ∧ abi_f.parameters.entries.length = map_nesting_levels t
        ∧ abi_f.parameters.entries.map (fun p => p.name)
            = sway.parameter_letters keys.length
        ∧ abi_f.parameters.entries.map (fun p => p.type_name) = keys.map some
        ∧ abi_f.return_type = some value
        ∧ top_f.body = some (.mk [] (some (spec_getter_chain new_name
            (sway.parameter_letters keys.length)))))
    ∧ sway.getter_function_parameters_and_return_type
        (.Identifier "StorageMap" (some [(.Identifier "Identity" none, none),
          (.Identifier "u64" none, none)]))
      = .ok (some ([({ name := "a", type_name := some (.Identifier "Identity" none) },
                     false)],
                   .Identifier "u64" none))
    ∧ storage_getter_body "balances"
        [({ name := "a", type_name := some (.Identifier "Identity" none) }, false)]
      = spec_getter_chain "balances" ["a"]
    ∧ sway.getter_function_parameters_and_return_type
        (.Identifier "StorageMap" (some [(.Identifier "Identity" none, none),
          (.Identifier "StorageMap" (some [(.Identifier "Identity" none, none),
            (.Identifier "u64" none, none)]), none)]))
      = .ok (some ([({ name := "a", type_name := some (.Identifier "Identity" none) },
                     false),
                    ({ name := "b", type_name := some (.Identifier "Identity" none) },
                     false)],
                   .Identifier "u64" none))
    ∧ storage_getter_body "allowances"
        [({ name := "a", type_name := some (.Identifier "Identity" none) }, false),
         ({ name := "b", type_name := some (.Identifier "Identity" none) }, false)]
      = spec_getter_chain "allowances" ["a", "b"] := by
  refine ⟨?_, rfl, rfl, rfl, rfl⟩
  intro new_name t keys value hchain hlen
  obtain ⟨ps, hg, hl, hn, ht, hf⟩ := getter_map_chain t keys value hchain hlen
  obtain ⟨abi_f, top_f, wrap_f, heq, hpe, hrt, hname, htop, hwb, hwp⟩ :=
    translate_state_variable_getter_spec new_name t ps value hg
  have hflags : ∀ pb ∈ ps, pb.2 = false := by
    intro pb hpb
    have hmem : pb.2 ∈ List.replicate keys.length false :=
      hf ▸ List.mem_map_of_mem _ hpb
    exact List.eq_of_mem_replicate hmem
  refine ⟨abi_f, top_f, wrap_f, heq, hname, ?_, ?_, ?_, hrt, ?_⟩
  · rw [hpe, List.length_map, hl, map_nesting_levels_of_chain t keys value hchain]
  · rw [hpe, List.map_map]
    exact hn
  · rw [hpe, List.map_map]
    exact ht
  · rw [htop, storage_getter_body_no_unwrap new_name ps hflags, hn]

/-- C1, counterexample: the type `StorageMap<Identity, StorageVec<u64>>`
has one map-nesting level, yet the synthesized getter has two parameters
(the storage vector contributes an index parameter `b : u64` flagged for an
`unwrap`), so "one parameter per map-nesting level" fails for storage maps
whose value is itself a getter-bearing container. -/
theorem claim_C1_counterexample :
    map_nesting_levels (.Identifier "StorageMap"
      (some [(.Identifier "Identity" none, none),
        (.Identifier "StorageVec" (some [(.Identifier "u64" none, none)]), none)])) = 1
    ∧ sway.getter_function_parameters_and_return_type (.Identifier "StorageMap"
        (some [(.Identifier "Identity" none, none),
          (.Identifier "StorageVec" (some [(.Identifier "u64" none, none)]), none)]))
      = .ok (some ([({ name := "a", type_name := some (.Identifier "Identity" none) },
                     false),
                    ({ name := "b", type_name := some (.Identifier "u64" none) },
                     true)],
                   .Identifier "u64" none))
    ∧ (([({ name := "a", type_name := some (.Identifier "Identity" none) }, false),
         ({ name := "b", type_name := some (.Identifier "u64" none) }, true)]
          : List (sway.Parameter × Bool))).length
        ≠ map_nesting_levels (.Identifier "StorageMap"
            (some [(.Identifier "Identity" none, none),
              (.Identifier "StorageVec" (some [(.Identifier "u64" none, none)]),
               none)])) := by
  refine ⟨rfl, rfl, by decide⟩

theorem map_name_mark (m : String) (ids : List sway.LetIdentifier) :
    (ids.map (mark_let_identifier_mutable m)).map (fun id => id.name)
      = ids.map (fun id => id.name) := by
  induction ids with
  | nil => rfl
  | cons id rest ih =>
    simp only [List.map_cons, mark_let_identifier_mutable_name, ih]

/-- The mutability pass on the two-statement list `[let, while]` produced by
the `for` desugaring: when every scope variable records declaring index 0 or
none, the pass keeps the second statement and only (possibly) marks
identifiers of the `let` mutable — names, declared type and initializer
value are unchanged. -/
theorem mark_mutable_declarations_for_pair :
    ∀ (vars : List TranslatedVariable),
      (∀ v ∈ vars, v.statement_index = none ∨ v.statement_index = some 0) →
      ∀ (l : sway.Let) (w : sway.Statement),
      ∃ l2, mark_mutable_declarations vars [.Let l, w] = .ok [.Let l2, w]
        ∧ l2.value = l.value
        ∧ l2.type_name = l.type_name
        ∧ (sway.LetPattern.ids l2.pattern).map (fun id => id.name)
            = (sway.LetPattern.ids l.pattern).map (fun id => id.name) := by
  intro vars
  induction vars with
  | nil =>
    intro _ l w
    exact ⟨l, rfl, rfl, rfl, rfl⟩
  | cons v vs ih =>
    intro hvars l w
    have hvs : ∀ u ∈ vs, u.statement_index = none ∨ u.statement_index = some 0 :=
      fun u hu => hvars u (List.mem_cons_of_mem _ hu)
    rcases hvars v (List.mem_cons_self _ _) with hv | hv
    · obtain ⟨l2, heq, h1, h2, h3⟩ := ih hvs l w
      refine ⟨l2, ?_, h1, h2, h3⟩
      simp only [mark_mutable_declarations, hv]
      exact heq
    · by_cases hm : 0 < v.mutation_count
      · obtain ⟨l2, heq, h1, h2, h3⟩ := ih hvs (mark_let_statement v.new_name l) w
        refine ⟨l2, ?_, ?_, ?_, ?_⟩
        · simp only [mark_mutable_declarations, hv, if_pos hm,
            List.getElem?_cons_zero, List.set_cons_zero]
          exact heq
        · rw [h1]
          rfl
        · rw [h2]
          rfl
        · rw [h3, mark_let_statement_ids, map_name_mark]
      · obtain ⟨l2, heq, h1, h2, h3⟩ := ih hvs l w
        refine ⟨l2, ?_, h1, h2, h3⟩
        simp only [mark_mutable_declarations, hv, if_neg hm]
        exact heq

/-- `finalize_block_translation` on the `[let, while]` pair built by the
`for` desugaring: the while statement is neither spliced nor popped, only
the `let` may gain mutability marks. -/
theorem finalize_for_pair (f : ScopeFrame) (parent : TranslationScope)
    (hf : ∀ v ∈ f.variables, v.statement_index = none ∨ v.statement_index = some 0)
    (l : sway.Let) (condE : sway.Expression) (b : sway.Block) :
    ∃ l2, finalize_block_translation (f :: parent)
        (.mk [.Let l, .Expression (.While condE b)] none)
      = .ok (.mk [.Let l2, .Expression (.While condE b)] none)
      ∧ l2.value = l.value
      ∧ l2.type_name = l.type_name
      ∧ (sway.LetPattern.ids l2.pattern).map (fun id => id.name)
          = (sway.LetPattern.ids l.pattern).map (fun id => id.name) := by
  obtain ⟨l2, hmark, h1, h2, h3⟩ :=
    mark_mutable_declarations_for_pair f.variables hf l (.Expression (.While condE b))
  refine ⟨l2, ?_, h1, h2, h3⟩
  unfold finalize_block_translation
  simp only [bind, Except.bind, scope_own_variables, sway.Block.statements, hmark]
  rfl

/-- C8: `translate_for_statement` lowers `for (init; cond; update) body`
to a single block statement `{ init; while cond { body; update } }`: the
translated initialization `let` (possibly with mutability marks added by
the finalization pass — value, declared type and bound names unchanged) is
followed by a `while` whose condition is the translated condition (the
literal `true` when absent, second conjunct) and whose body is the
translated body with the desugared update appended as its last statement;
a standalone pre/post increment or decrement update becomes a `+=`/`-=`
compound assignment by the literal `1` (third conjunct).  The induction
variable lives in a dedicated child scope: the scope returned to the caller
is the unchanged enclosing chain, so nothing declared by the
initialization is visible after the statement.  The final conjunct runs the
desugaring end to end on `for (uint i = 0; i < n; i++) body`-shaped
input with concrete collaborators. -/
theorem claim_C8_for_desugaring :
    (∀ (SolStmt : Type) (tstmt : StatementTranslator SolStmt)
        (texpr : ExpressionTranslator) (tassign : AssignmentTranslator)
        (scope : TranslationScope) (init bodyStmt : SolStmt)
        (c u : solidity.Expression) (l : sway.Let)
        (f1 f2 f3 f4 f5 : ScopeFrame) (condE updE : sway.Expression)
        (body_block : sway.Block),
      tstmt ({ «variables» := [], functions := [] } :: scope) init
          = .ok (.Let l, f1 :: scope) →
      store_let_identifier_statement_indices (f1 :: scope)
          (sway.LetPattern.ids l.pattern) 0 = .ok (f2 :: scope) →
      texpr (f2 :: scope) c = .ok (condE, f3 :: scope) →
      tstmt (f3 :: scope) bodyStmt
          = .ok (.Expression (.Block body_block), f4 :: scope) →
      translate_for_update texpr tassign (f4 :: scope) u = .ok (updE, f5 :: scope) →
      (∀ v ∈ f5.variables, v.statement_index = none ∨ v.statement_index = some 0) →
      ∃ l2,
        translate_for_statement tstmt texpr tassign scope
            (some init) (some c) (some u) (some bodyStmt)
          = .ok (.Expression (.Block (.mk
              [.Let l2,
               .Expression (.While condE
                 (.mk (body_block.statements ++ [.Expression updE])
                   body_block.final_expr))]
              none)),
            scope)
        ∧ l2.value = l.value
        ∧ l2.type_name = l.type_name
        ∧ (sway.LetPattern.ids l2.pattern).map (fun id => id.name)
            = (sway.LetPattern.ids l.pattern).map (fun id => id.name))
    ∧ (∀ (texpr : ExpressionTranslator) (scope : TranslationScope),
        translate_for_condition texpr scope none
          = .ok (.Literal (.Bool true), scope))
    ∧ (∀ (texpr : ExpressionTranslator) (tassign : AssignmentTranslator)
          (scope : TranslationScope) (x : solidity.Expression),
        translate_for_update texpr tassign scope (.PostIncrement x)
            = tassign scope "+=" x (.NumberLiteral "1" "")
          ∧ translate_for_update texpr tassign scope (.PreIncrement x)
              = tassign scope "+=" x (.NumberLiteral "1" "")
          ∧ translate_for_update texpr tassign scope (.PostDecrement x)
              = tassign scope "-=" x (.NumberLiteral "1" "")
          ∧ translate_for_update texpr tassign scope (.PreDecrement x)
              = tassign scope "-=" x (.NumberLiteral "1" ""))
    ∧ translate_for_statement
        (fun scope s =>
          if s = 0 then
            .ok (.Let (.mk (.Identifier { is_mutable := false, name := "i" }) none
                (.Literal (.DecInt 0))),
              push_variable scope { old_name := "i", new_name := "i", mutation_count := 1 })
          else
            .ok (.Expression (.Block (.mk [.Expression (.Identifier "body_work")] none)),
              scope))
        (fun scope e => .ok (.Identifier "i_lt_n", scope))
        (fun scope op x rhs => .ok (.Identifier "i_plus_one", scope))
        [] (some 0) (some (.Variable "n")) (some (.PostIncrement (.Variable "i")))
        (some 1)
      = .ok (.Expression (.Block (.mk
          [.Let (.mk (.Identifier { is_mutable := true, name := "i" }) none
             (.Literal (.DecInt 0))),
           .Expression (.While (.Identifier "i_lt_n")
             (.mk [.Expression (.Identifier "body_work"),
                   .Expression (.Identifier "i_plus_one")] none))]
          none)),
        []) := by
  refine ⟨?_, fun texpr scope => rfl,
    fun texpr tassign scope x => ⟨rfl, rfl, rfl, rfl⟩, ?_⟩
  · intro SolStmt tstmt texpr tassign scope init bodyStmt c u l
      f1 f2 f3 f4 f5 condE updE body_block hinit hidx hcond hbody hupd hf5
    obtain ⟨l2, hfin, h1, h2, h3⟩ := finalize_for_pair f5 scope hf5 l condE
      (.mk (body_block.statements ++ [.Expression updE]) body_block.final_expr)
    refine ⟨l2, ?_, h1, h2, h3⟩
    unfold translate_for_statement
    simp only [bind, Except.bind, hinit, hidx, translate_for_condition, hcond,
      hbody, hupd, List.cons_append, List.nil_append, hfin]
  · rfl

end Charcoal
